import Mathlib

/-!
Verification development for the Telegram news-analyzer core: the
message-to-analysis pipeline (channel polling with a cursor, the LLM
analyzer with its LRU/TTL cache, retry with exponential backoff, hashtag
cleaning, and notification dispatch with subscriber soft-delete).

The Python sources are embedded shallowly:

* `pipeline/cleaning.py` (`truncate_text`, `clean_and_validate_hashtags`);
* `services/llm/analyzer.py` (`LRUCacheWithTTL`, `OllamaAnalyzer`);
* `utils/error_handler.py` (`RetryConfig`, `retry_with_backoff`);
* `monitoring_service.py` (`MonitoringService._process_single_message`,
  `MonitoringService._process_channel`);
* `services/telegram_monitor.py` (`TelegramMonitor.get_new_messages`);
* `bot/notifier.py` (`NotificationManager._send_single_notification`);
* `services/data_manager.py` (cursor store and subscriber table).

Python strings are modelled as Lean `String` (lists of code points).  The
character classes used by `re.sub(r"[^\w\s]", ...)`, `str.strip`, and
`str.lower` are modelled over the code-point ranges the system actually
uses (ASCII plus the Cyrillic block); the Python `\w`, `\s` and `lower` classes agree
with this model on those ranges.  External collaborators (the Telethon
client, the Ollama endpoint, the Telegram bot API, and the SQLite store)
are modelled as oracles/state exactly at the interfaces the code consumes.
-/

/-! ## Character model (code points, as used by `re`, `strip`, `lower`) -/

/-- A code point matching the Python class `\w` (word character) on the ASCII and
Cyrillic ranges: digits, Latin letters, underscore, and the Cyrillic block
U+0400 to U+04FF. -/
def isWordChar (c : Char) : Bool :=
  (48 ≤ c.toNat && c.toNat ≤ 57) || (65 ≤ c.toNat && c.toNat ≤ 90) ||
  (97 ≤ c.toNat && c.toNat ≤ 122) || (c.toNat == 95) ||
  (1024 ≤ c.toNat && c.toNat ≤ 1279)

/-- A code point matching the Python class `\s` (whitespace) on the ASCII range:
space, tab, newline, vertical tab, form feed, carriage return. -/
def isSpaceChar (c : Char) : Bool :=
  c.toNat == 32 || c.toNat == 9 || c.toNat == 10 ||
  c.toNat == 11 || c.toNat == 12 || c.toNat == 13

/-- The Python method `str.lower` on a single code point, on the ASCII and Cyrillic
ranges: `A`-`Z` and `А`-`Я` shift by 32, `Ё` (U+0401) maps to `ё` (U+0451),
everything else is fixed. -/
def lowerChar (c : Char) : Char :=
  if 65 ≤ c.toNat ∧ c.toNat ≤ 90 then Char.ofNat (c.toNat + 32)
  else if 1040 ≤ c.toNat ∧ c.toNat ≤ 1071 then Char.ofNat (c.toNat + 32)
  else if c.toNat = 1025 then Char.ofNat 1105
  else c

theorem char_toNat_inj {a b : Char} (h : a.toNat = b.toNat) : a = b :=
  Char.ext (UInt32.ext h)

theorem char_toNat_ofNat (n : Nat) (h : n < 55296) : (Char.ofNat n).toNat = n := by
  unfold Char.ofNat
  rw [dif_pos (Or.inl h)]
  unfold Char.ofNatAux Char.toNat
  simp [UInt32.toNat]

theorem toNat_lowerChar (c : Char) :
    (lowerChar c).toNat =
      if 65 ≤ c.toNat ∧ c.toNat ≤ 90 then c.toNat + 32
      else if 1040 ≤ c.toNat ∧ c.toNat ≤ 1071 then c.toNat + 32
      else if c.toNat = 1025 then 1105
      else c.toNat := by
  unfold lowerChar
  by_cases h1 : 65 ≤ c.toNat ∧ c.toNat ≤ 90
  · rw [if_pos h1, if_pos h1, char_toNat_ofNat _ (by omega)]
  · rw [if_neg h1, if_neg h1]
    by_cases h2 : 1040 ≤ c.toNat ∧ c.toNat ≤ 1071
    · rw [if_pos h2, if_pos h2, char_toNat_ofNat _ (by omega)]
    · rw [if_neg h2, if_neg h2]
      by_cases h3 : c.toNat = 1025
      · rw [if_pos h3, if_pos h3, char_toNat_ofNat _ (by omega)]
      · rw [if_neg h3, if_neg h3]

theorem lowerChar_idem (c : Char) : lowerChar (lowerChar c) = lowerChar c := by
  apply char_toNat_inj
  rw [toNat_lowerChar (lowerChar c)]
  have hX := toNat_lowerChar c
  by_cases h1 : 65 ≤ c.toNat ∧ c.toNat ≤ 90
  · rw [if_pos h1] at hX
    rw [if_neg (by omega), if_neg (by omega), if_neg (by omega)]
  · rw [if_neg h1] at hX
    by_cases h2 : 1040 ≤ c.toNat ∧ c.toNat ≤ 1071
    · rw [if_pos h2] at hX
      rw [if_neg (by omega), if_neg (by omega), if_neg (by omega)]
    · rw [if_neg h2] at hX
      by_cases h3 : c.toNat = 1025
      · rw [if_pos h3] at hX
        rw [if_neg (by omega), if_neg (by omega), if_neg (by omega)]
      · rw [if_neg h3] at hX
        rw [if_neg (by omega), if_neg (by omega), if_neg (by omega)]

theorem isWordChar_lowerChar {c : Char} (h : isWordChar c = true) :
    isWordChar (lowerChar c) = true := by
  simp only [isWordChar, Bool.or_eq_true, Bool.and_eq_true, decide_eq_true_eq,
    beq_iff_eq] at h ⊢
  rw [toNat_lowerChar c]
  split
  · omega
  · split
    · omega
    · split <;> omega

theorem isSpaceChar_lowerChar (c : Char) : isSpaceChar (lowerChar c) = isSpaceChar c := by
  rw [Bool.eq_iff_iff]
  simp only [isSpaceChar, Bool.or_eq_true, beq_iff_eq]
  rw [toNat_lowerChar c]
  split
  · omega
  · split
    · omega
    · split <;> omega

theorem lowerChar_ne_space {c : Char} (h : c ≠ ' ') : lowerChar c ≠ ' ' := by
  intro heq
  have hsp : (' ' : Char).toNat = 32 := by decide
  have h2 := congrArg Char.toNat heq
  rw [toNat_lowerChar c, hsp] at h2
  have h3 : c.toNat ≠ 32 := by
    intro hn
    exact h (char_toNat_inj (by rw [hn, hsp]))
  revert h2
  split
  · omega
  · split
    · omega
    · split <;> omega

/-! ## Embedding of `pipeline/cleaning.py` -/

/-- Configured maximum text length sent to the LLM
(`core/config.py`, `MAX_TEXT_LENGTH_FOR_ANALYSIS`, default 9000). -/
def MAX_TEXT_LENGTH_FOR_ANALYSIS : Nat := 9000

/-- Configured maximum number of hashtags in an analysis
(`core/config.py`, `MAX_HASHTAGS_IN_ANALYSIS`, default 5; also duplicated
as a constant in `utils/constants.py`). -/
def MAX_HASHTAGS_IN_ANALYSIS : Nat := 5

/-- Python `truncate_text(text, max_len)`: `text if len(text) <= max_len else
text[:max_len] + "..."`. -/
def truncate_text (text : String) (max_len : Nat) : String :=
  if text.length ≤ max_len then text
  else String.mk (text.toList.take max_len) ++ "..."

/-- Python `re.sub(r"[^\w\s]", "", tag)`: delete every character that is neither a
word character nor whitespace. -/
def reSubNonWord (l : List Char) : List Char :=
  l.filter (fun c => isWordChar c || isSpaceChar c)

/-- Python `str.strip()`: drop whitespace from both ends. -/
def pyStripChars (l : List Char) : List Char :=
  List.rdropWhile isSpaceChar (l.dropWhile isSpaceChar)

/-- Python `str.replace(" ", "_")`. -/
def underscoreChars (l : List Char) : List Char :=
  l.map (fun c => if c = ' ' then '_' else c)

/-- Python `str.lower()` (character-wise on our ranges). -/
def lowerChars (l : List Char) : List Char := l.map lowerChar

/-- The per-tag cleanup `re.sub(r"[^\w\s]", "", tag).strip().replace(" ", "_")`
from `clean_and_validate_hashtags`. -/
def tagCleanChars (l : List Char) : List Char :=
  underscoreChars (pyStripChars (reSubNonWord l))

/-- Order-preserving deduplication with an accumulator of already-seen
elements; `dedupAux [] l` is the Python `list(dict.fromkeys(l))`. -/
def dedupAux (seen : List String) : List String → List String
  | [] => []
  | x :: xs => if x ∈ seen then dedupAux seen xs else x :: dedupAux (x :: seen) xs

/-- Python `list(dict.fromkeys(cleaned))`: deduplicate preserving first-seen
order. -/
def dedupFirst (l : List String) : List String := dedupAux [] l

/-- A Python value as decoded from JSON (used both for `json.loads` results
and for values the Ollama client may hand back directly).  Floating-point
JSON numbers do not occur in this development and are not modelled. -/
inductive PyVal where
  | vNull : PyVal
  | vBool : Bool → PyVal
  | vInt : Int → PyVal
  | vStr : String → PyVal
  | vList : List PyVal → PyVal
  | vDict : List (String × PyVal) → PyVal

/-- One loop iteration of `clean_and_validate_hashtags`: non-`str` entries
are skipped (`isinstance(tag, str)`), the tag is cleaned, empty results are
dropped (`if tag_clean`), and the kept value is lowercased
(`cleaned.append(tag_clean.lower())`). -/
def cleanTag : PyVal → Option String
  | .vStr s =>
    let tc := tagCleanChars s.toList
    if tc.isEmpty then none else some (String.mk (lowerChars tc))
  | _ => none

/-- Python `clean_and_validate_hashtags(raw)`: keep only `str` entries, clean each
(`re.sub`, `strip`, `replace`, drop empties, lowercase), then deduplicate
preserving first-seen order.  The non-list early return of the source is a
type guard that cannot fire on a `List` argument. -/
def clean_and_validate_hashtags (raw : List PyVal) : List String :=
  dedupFirst (raw.filterMap cleanTag)

/-! ## Fixed-point lemmas for the hashtag cleanup pipeline -/

theorem mem_pyStripChars {c : Char} {l : List Char} (h : c ∈ pyStripChars l) : c ∈ l := by
  unfold pyStripChars at h
  have h1 := (List.rdropWhile_prefix isSpaceChar (l.dropWhile isSpaceChar)).sublist.subset h
  exact (List.dropWhile_sublist isSpaceChar).subset h1

theorem mem_tagCleanChars {c : Char} {l : List Char} (h : c ∈ tagCleanChars l) :
    (isWordChar c || isSpaceChar c) = true ∧ c ≠ ' ' := by
  unfold tagCleanChars underscoreChars at h
  rcases List.mem_map.mp h with ⟨c₀, hc₀, hmap⟩
  have hc₀l : c₀ ∈ reSubNonWord l := mem_pyStripChars hc₀
  have hword : (isWordChar c₀ || isSpaceChar c₀) = true :=
    (List.mem_filter.mp hc₀l).2
  by_cases hsp : c₀ = ' '
  · rw [if_pos hsp] at hmap
    subst hmap
    constructor
    · decide
    · decide
  · rw [if_neg hsp] at hmap
    subst hmap
    exact ⟨hword, hsp⟩

theorem head?_pyStrip {l : List Char} {c : Char} (h : (pyStripChars l).head? = some c) :
    isSpaceChar c = false := by
  unfold pyStripChars at h
  have hne : List.rdropWhile isSpaceChar (l.dropWhile isSpaceChar) ≠ [] := by
    intro hnil
    rw [hnil] at h
    exact Option.noConfusion h
  obtain ⟨t, ht⟩ := List.rdropWhile_prefix isSpaceChar (l.dropWhile isSpaceChar)
  have hm : (l.dropWhile isSpaceChar).head? = some c := by
    rw [← ht, List.head?_append_of_ne_nil _ hne, h]
  have hmne : l.dropWhile isSpaceChar ≠ [] := by
    intro hnil
    rw [hnil] at hm
    exact Option.noConfusion hm
  have hhead := List.head_dropWhile_not isSpaceChar l hmne
  rw [List.head?_eq_head hmne] at hm
  rw [← Option.some_inj.mp hm]
  exact hhead

theorem getLast?_pyStrip {l : List Char} {c : Char} (h : (pyStripChars l).getLast? = some c) :
    isSpaceChar c = false := by
  unfold pyStripChars at h
  have hne : List.rdropWhile isSpaceChar (l.dropWhile isSpaceChar) ≠ [] := by
    intro hnil
    rw [hnil] at h
    exact Option.noConfusion h
  have hlast := List.rdropWhile_last_not isSpaceChar (l.dropWhile isSpaceChar) hne
  rw [List.getLast?_eq_getLast _ hne] at h
  rw [← Option.some_inj.mp h]
  exact Bool.not_eq_true _ ▸ (by simpa using hlast)

theorem head?_tagCleanChars {l : List Char} {c : Char}
    (h : (tagCleanChars l).head? = some c) : isSpaceChar c = false := by
  unfold tagCleanChars underscoreChars at h
  rw [List.head?_map] at h
  rcases Option.map_eq_some'.mp h with ⟨c₀, hc₀, hmap⟩
  have h₀ := head?_pyStrip hc₀
  by_cases hsp : c₀ = ' '
  · rw [if_pos hsp] at hmap
    rw [← hmap]
    decide
  · rw [if_neg hsp] at hmap
    rw [← hmap]
    exact h₀

theorem getLast?_tagCleanChars {l : List Char} {c : Char}
    (h : (tagCleanChars l).getLast? = some c) : isSpaceChar c = false := by
  unfold tagCleanChars underscoreChars at h
  rw [List.getLast?_map] at h
  rcases Option.map_eq_some'.mp h with ⟨c₀, hc₀, hmap⟩
  have h₀ := getLast?_pyStrip hc₀
  by_cases hsp : c₀ = ' '
  · rw [if_pos hsp] at hmap
    rw [← hmap]
    decide
  · rw [if_neg hsp] at hmap
    rw [← hmap]
    exact h₀

theorem lowerChars_idem (l : List Char) : lowerChars (lowerChars l) = lowerChars l := by
  unfold lowerChars
  rw [List.map_map]
  exact List.map_congr_left (fun a _ => lowerChar_idem a)

theorem mem_lowerChars_tagClean {a : Char} {l : List Char}
    (h : a ∈ lowerChars (tagCleanChars l)) :
    (isWordChar a || isSpaceChar a) = true ∧ a ≠ ' ' := by
  rcases List.mem_map.mp h with ⟨c₀, hc₀, hmap⟩
  obtain ⟨hw₀, hs₀⟩ := mem_tagCleanChars hc₀
  subst hmap
  refine ⟨?_, lowerChar_ne_space hs₀⟩
  rcases Bool.or_eq_true _ _ |>.mp hw₀ with hw | hs
  · rw [isWordChar_lowerChar hw]
    rfl
  · rw [isSpaceChar_lowerChar c₀, hs]
    simp

theorem tagClean_fixed (l : List Char) :
    tagCleanChars (lowerChars (tagCleanChars l)) = lowerChars (tagCleanChars l) := by
  have hsub : reSubNonWord (lowerChars (tagCleanChars l)) = lowerChars (tagCleanChars l) :=
    List.filter_eq_self.mpr (fun a ha => (mem_lowerChars_tagClean ha).1)
  have hdrop : (lowerChars (tagCleanChars l)).dropWhile isSpaceChar
      = lowerChars (tagCleanChars l) := by
    cases hu : lowerChars (tagCleanChars l) with
    | nil => rfl
    | cons c rest =>
      have hc : isSpaceChar c = false := by
        have hh : (lowerChars (tagCleanChars l)).head? = some c := by
          rw [hu]
          rfl
        unfold lowerChars at hh
        rw [List.head?_map] at hh
        rcases Option.map_eq_some'.mp hh with ⟨c₀, hc₀, hmap⟩
        rw [← hmap, isSpaceChar_lowerChar c₀]
        exact head?_tagCleanChars hc₀
      simp [List.dropWhile_cons, hc]
  have hrdrop : List.rdropWhile isSpaceChar (lowerChars (tagCleanChars l))
      = lowerChars (tagCleanChars l) := by
    rw [List.rdropWhile_eq_self_iff]
    intro hl
    have hg : (lowerChars (tagCleanChars l)).getLast? =
        some ((lowerChars (tagCleanChars l)).getLast hl) :=
      List.getLast?_eq_getLast _ hl
    unfold lowerChars at hg
    rw [List.getLast?_map] at hg
    rcases Option.map_eq_some'.mp hg with ⟨c₀, hc₀, hmap⟩
    have : isSpaceChar ((lowerChars (tagCleanChars l)).getLast hl) = false := by
      unfold lowerChars
      rw [← hmap, isSpaceChar_lowerChar c₀]
      exact getLast?_tagCleanChars hc₀
    simp [this]
  have hund : underscoreChars (lowerChars (tagCleanChars l)) = lowerChars (tagCleanChars l) := by
    unfold underscoreChars
    have hcongr : ∀ a ∈ lowerChars (tagCleanChars l),
        (if a = ' ' then '_' else a) = id a := by
      intro a ha
      rw [if_neg (mem_lowerChars_tagClean ha).2]
      rfl
    rw [List.map_congr_left hcongr, List.map_id]
  show underscoreChars (pyStripChars (reSubNonWord (lowerChars (tagCleanChars l))))
      = lowerChars (tagCleanChars l)
  rw [hsub]
  unfold pyStripChars
  rw [hdrop, hrdrop, hund]

theorem mem_dedupAux_iff {a : String} :
    ∀ {l seen : List String}, a ∈ dedupAux seen l ↔ (a ∈ l ∧ a ∉ seen) := by
  intro l
  induction l with
  | nil => intro seen; simp [dedupAux]
  | cons x xs ih =>
    intro seen
    unfold dedupAux
    by_cases hx : x ∈ seen
    · rw [if_pos hx, ih]
      constructor
      · rintro ⟨h1, h2⟩
        exact ⟨List.mem_cons_of_mem _ h1, h2⟩
      · rintro ⟨h1, h2⟩
        rcases List.mem_cons.mp h1 with h | h
        · subst h; exact absurd hx h2
        · exact ⟨h, h2⟩
    · rw [if_neg hx]
      constructor
      · intro h
        rcases List.mem_cons.mp h with h | h
        · subst h; exact ⟨List.mem_cons_self _ _, hx⟩
        · obtain ⟨h1, h2⟩ := ih.mp h
          refine ⟨List.mem_cons_of_mem _ h1, fun hs => h2 (List.mem_cons_of_mem _ hs)⟩
      · rintro ⟨h1, h2⟩
        rcases List.mem_cons.mp h1 with h | h
        · subst h; exact List.mem_cons_self _ _
        · by_cases hax : a = x
          · subst hax; exact List.mem_cons_self _ _
          · exact List.mem_cons_of_mem _ (ih.mpr ⟨h, by
              intro hs
              rcases List.mem_cons.mp hs with h' | h'
              · exact hax h'
              · exact h2 h'⟩)

theorem nodup_dedupAux : ∀ (l seen : List String), (dedupAux seen l).Nodup := by
  intro l
  induction l with
  | nil => intro seen; simp [dedupAux]
  | cons x xs ih =>
    intro seen
    unfold dedupAux
    by_cases hx : x ∈ seen
    · rw [if_pos hx]; exact ih seen
    · rw [if_neg hx]
      refine List.nodup_cons.mpr ⟨?_, ih (x :: seen)⟩
      intro hmem
      exact (mem_dedupAux_iff.mp hmem).2 (List.mem_cons_self _ _)

theorem dedupAux_of_nodup :
    ∀ (l seen : List String), l.Nodup → (∀ a ∈ l, a ∉ seen) → dedupAux seen l = l := by
  intro l
  induction l with
  | nil => intro seen _ _; rfl
  | cons x xs ih =>
    intro seen hnd hsn
    unfold dedupAux
    rw [if_neg (hsn x (List.mem_cons_self _ _))]
    congr 1
    apply ih
    · exact (List.nodup_cons.mp hnd).2
    · intro a ha
      intro hs
      rcases List.mem_cons.mp hs with h | h
      · subst h; exact (List.nodup_cons.mp hnd).1 ha
      · exact hsn a (List.mem_cons_of_mem _ ha) h

theorem dedupFirst_idem (l : List String) : dedupFirst (dedupFirst l) = dedupFirst l := by
  unfold dedupFirst
  exact dedupAux_of_nodup _ _ (nodup_dedupAux l []) (fun a _ h => (List.not_mem_nil a) h)

theorem filterMap_fixed {α : Type} {f : α → Option α} :
    ∀ {l : List α}, (∀ a ∈ l, f a = some a) → l.filterMap f = l := by
  intro l
  induction l with
  | nil => intro _; rfl
  | cons x xs ih =>
    intro h
    rw [List.filterMap_cons, h x (List.mem_cons_self _ _),
      ih (fun a ha => h a (List.mem_cons_of_mem _ ha))]

theorem cleanTag_vStr (s : String) :
    cleanTag (PyVal.vStr s) =
      if (tagCleanChars s.toList).isEmpty then none
      else some (String.mk (lowerChars (tagCleanChars s.toList))) := rfl

theorem cleanTag_of_output {s : String} {t : PyVal} (h : cleanTag t = some s) :
    cleanTag (PyVal.vStr s) = some s := by
  cases t with
  | vStr s₀ =>
    rw [cleanTag_vStr s₀] at h
    by_cases he : (tagCleanChars s₀.toList).isEmpty
    · rw [if_pos he] at h
      exact Option.noConfusion h
    · rw [if_neg he] at h
      have hs : s = String.mk (lowerChars (tagCleanChars s₀.toList)) :=
        (Option.some_inj.mp h).symm
      subst hs
      rw [cleanTag_vStr]
      have htl : (String.mk (lowerChars (tagCleanChars s₀.toList))).toList
          = lowerChars (tagCleanChars s₀.toList) := rfl
      rw [show (String.mk (lowerChars (tagCleanChars s₀.toList))).toList
          = lowerChars (tagCleanChars s₀.toList) from rfl, tagClean_fixed s₀.toList]
      have hne : (lowerChars (tagCleanChars s₀.toList)).isEmpty = false := by
        cases hc : tagCleanChars s₀.toList with
        | nil => rw [hc] at he; exact absurd rfl he
        | cons a as => rfl
      rw [hne]
      simp only [Bool.false_eq_true, if_false]
      rw [lowerChars_idem]
  | vNull => exact Option.noConfusion h
  | vBool b => exact Option.noConfusion h
  | vInt n => exact Option.noConfusion h
  | vList xs => exact Option.noConfusion h
  | vDict kvs => exact Option.noConfusion h

/-- C7: hashtag normalization is idempotent.  Feeding the output of
`clean_and_validate_hashtags` (as a list of Python strings) back into it
returns the same list. -/
theorem C7_clean_hashtags_idempotent (raw : List PyVal) :
    clean_and_validate_hashtags ((clean_and_validate_hashtags raw).map PyVal.vStr)
      = clean_and_validate_hashtags raw := by
  unfold clean_and_validate_hashtags
  rw [List.filterMap_map]
  have hfix : ∀ s ∈ dedupFirst (raw.filterMap cleanTag),
      (cleanTag ∘ PyVal.vStr) s = some s := by
    intro s hs
    have hs' : s ∈ raw.filterMap cleanTag := (mem_dedupAux_iff.mp hs).1
    rcases List.mem_filterMap.mp hs' with ⟨t, _, ht⟩
    exact cleanTag_of_output ht
  rw [filterMap_fixed hfix]
  exact dedupFirst_idem _

/-! ## Python dict / JSON model (`json.loads` and dict operations) -/

/-- Python `dict` lookup on an association list (keys are unique because
`dictSet` is the only way entries are added). -/
def lookupKey (k : String) : List (String × PyVal) → Option PyVal
  | [] => none
  | (k', v) :: rest => if k' = k then some v else lookupKey k rest

/-- Python `d[k] = v`: replace the value in place if the key exists
(dict insertion order is kept), else append the pair. -/
def dictSet (k : String) (v : PyVal) (l : List (String × PyVal)) : List (String × PyVal) :=
  if (lookupKey k l).isSome then l.map (fun p => if p.1 = k then (k, v) else p)
  else l ++ [(k, v)]

/-- JSON insignificant whitespace. -/
def jSkipWs (l : List Char) : List Char :=
  l.dropWhile (fun c => c = ' ' || c = '\t' || c = '\n' || c = '\r')

/-- JSON string body after the opening quote; handles the single-character
escapes.  `\uXXXX` escapes do not occur in this development and make the
parse fail. -/
def jParseStringBody : List Char → Option (List Char × List Char)
  | [] => none
  | '"' :: r => some ([], r)
  | '\\' :: e :: r =>
    match
      (if e = '"' then some '"'
       else if e = '\\' then some '\\'
       else if e = '/' then some '/'
       else if e = 'n' then some '\n'
       else if e = 't' then some '\t'
       else if e = 'r' then some '\r'
       else if e = 'b' then some (Char.ofNat 8)
       else if e = 'f' then some (Char.ofNat 12)
       else none) with
    | some c =>
      match jParseStringBody r with
      | some (cs, rest) => some (c :: cs, rest)
      | none => none
    | none => none
  | '\\' :: [] => none
  | c :: r =>
    match jParseStringBody r with
    | some (cs, rest) => some (c :: cs, rest)
    | none => none

/-- Accumulate decimal digits. -/
def jParseDigits : List Char → Nat → Nat × List Char
  | [], acc => (acc, [])
  | c :: r, acc =>
    if c.isDigit then jParseDigits r (acc * 10 + (c.toNat - 48)) else (acc, c :: r)

/-- JSON integer after an optional sign; a fractional part or exponent does
not occur in this development and makes the parse fail. -/
def jParseNumAfterSign (neg : Bool) : List Char → Option (PyVal × List Char)
  | [] => none
  | c :: r =>
    if c.isDigit then
      match jParseDigits r (c.toNat - 48) with
      | (n, rest) =>
        match rest with
        | '.' :: _ => none
        | 'e' :: _ => none
        | 'E' :: _ => none
        | _ => some (.vInt (if neg then -(n : Int) else (n : Int)), rest)
    else none

mutual

/-- Recursive-descent JSON value parser (fuel-indexed). -/
def jParseVal : Nat → List Char → Option (PyVal × List Char)
  | 0, _ => none
  | fuel + 1, l =>
    match jSkipWs l with
    | 'n' :: 'u' :: 'l' :: 'l' :: r => some (.vNull, r)
    | 't' :: 'r' :: 'u' :: 'e' :: r => some (.vBool true, r)
    | 'f' :: 'a' :: 'l' :: 's' :: 'e' :: r => some (.vBool false, r)
    | '"' :: r =>
      match jParseStringBody r with
      | some (cs, rest) => some (.vStr (String.mk cs), rest)
      | none => none
    | '[' :: r =>
      match jSkipWs r with
      | ']' :: r2 => some (.vList [], r2)
      | l2 => jParseElems fuel l2 []
    | '\x7b' :: r =>
      match jSkipWs r with
      | '\x7d' :: r2 => some (.vDict [], r2)
      | l2 => jParseMembers fuel l2 []
    | '-' :: r => jParseNumAfterSign true r
    | c :: r => if c.isDigit then jParseNumAfterSign false (c :: r) else none
    | [] => none

/-- JSON array elements (after the opening bracket, at a value). -/
def jParseElems : Nat → List Char → List PyVal → Option (PyVal × List Char)
  | 0, _, _ => none
  | fuel + 1, l, acc =>
    match jParseVal fuel l with
    | none => none
    | some (v, rest) =>
      match jSkipWs rest with
      | ',' :: r => jParseElems fuel r (acc ++ [v])
      | ']' :: r => some (.vList (acc ++ [v]), r)
      | _ => none

/-- JSON object members (after the opening brace, at a key). -/
def jParseMembers : Nat → List Char → List (String × PyVal) → Option (PyVal × List Char)
  | 0, _, _ => none
  | fuel + 1, l, acc =>
    match jSkipWs l with
    | '"' :: r =>
      match jParseStringBody r with
      | none => none
      | some (ks, rest) =>
        match jSkipWs rest with
        | ':' :: r2 =>
          match jParseVal fuel r2 with
          | none => none
          | some (v, rest2) =>
            match jSkipWs rest2 with
            | ',' :: r3 => jParseMembers fuel r3 (dictSet (String.mk ks) v acc)
            | '\x7d' :: r3 => some (.vDict (dictSet (String.mk ks) v acc), r3)
            | _ => none
        | _ => none
    | _ => none

end

/-- Python `json.loads`: parse one JSON value, allow trailing whitespace
only. -/
def jsonLoads (s : String) : Option PyVal :=
  match jParseVal (2 * s.toList.length + 2) s.toList with
  | some (v, rest) => if jSkipWs rest = [] then some v else none
  | none => none

/-! ## Embedding of `services/llm/analyzer.py` -/

/-- The pydantic model `NewsAnalysis(summary, sentiment, hashtags)`. -/
structure NewsAnalysis where
  summary : String
  sentiment : String
  hashtags : List String
deriving DecidableEq, Repr

/-- What `self.llm_json.ainvoke(prompt)` hands back at the Python level:
normally a string (parsed with `json.loads`), in rare cases an
already-decoded dict or list. -/
inductive RawOutput where
  | rStr : String → RawOutput
  | rDict : List (String × PyVal) → RawOutput
  | rList : List PyVal → RawOutput

/-- One model invocation either returns a raw output or raises (network
error, timeout, and so on). -/
inductive InvokeResult where
  | ret : RawOutput → InvokeResult
  | raise : InvokeResult

/-- The `response_raw` branch dance of `analyze_message` (lines 221-240):
a dict is used as-is; a list is wrapped into a synthetic object with a
blank summary and neutral sentiment; a string goes through `json.loads`,
and a `JSONDecodeError` yields `None`. -/
def decodeRaw : RawOutput → Option PyVal
  | .rDict kvs => some (.vDict kvs)
  | .rList xs =>
    some (.vDict [("summary", .vStr " "), ("sentiment", .vStr "Нейтральная"),
      ("hashtags", .vList xs)])
  | .rStr s => jsonLoads s

/-- Does a dict carry all three required keys? -/
def hasThreeKeys (kvs : List (String × PyVal)) : Bool :=
  (lookupKey "summary" kvs).isSome && (lookupKey "sentiment" kvs).isSome &&
  (lookupKey "hashtags" kvs).isSome

/-- Does the raw model output parse as a JSON object carrying the three
required keys `summary`, `sentiment`, `hashtags`?  (The property quantified
over in the response-handling clause of the spec.) -/
def parsesAsThreeKeyObject : RawOutput → Bool
  | .rDict kvs => hasThreeKeys kvs
  | .rList _ => false
  | .rStr s =>
    match jsonLoads s with
    | some (.vDict kvs) => hasThreeKeys kvs
    | _ => false

/-- Extract a Python `str`. -/
def strOfVal : PyVal → Option String
  | .vStr s => some s
  | _ => none

/-- pydantic validation of `List[str]`. -/
def asStrList (xs : List PyVal) : Option (List String) := xs.mapM strOfVal

/-- pydantic v2 validation of a required `str` field: present and a
string. -/
def getStrKey (k : String) (kvs : List (String × PyVal)) : Option String :=
  match lookupKey k kvs with
  | some (.vStr s) => some s
  | _ => none

/-- pydantic v2 validation of a required `List[...]` field: present and a
list. -/
def getListKey (k : String) (kvs : List (String × PyVal)) : Option (List PyVal) :=
  match lookupKey k kvs with
  | some (.vList xs) => some xs
  | _ => none

/-- The tail of the try block of `analyze_message` once `response_json` is in
hand: `data["hashtags"] = clean_and_validate_hashtags(...)` when the key
holds a list, then `NewsAnalysis(**data)` (pydantic v2: all three fields
required, `str`/`str`/`List[str]`, extra keys ignored).  `data.get` on a
non-dict raises `AttributeError`, which the enclosing `except` turns into
`None`; a pydantic `ValidationError` is absorbed the same way. -/
def buildAnalysis (v : PyVal) : Option NewsAnalysis :=
  match v with
  | .vDict kvs =>
    let kvs' :=
      match lookupKey "hashtags" kvs with
      | some (.vList xs) =>
        dictSet "hashtags" (.vList ((clean_and_validate_hashtags xs).map PyVal.vStr)) kvs
      | _ => kvs
    match getStrKey "summary" kvs', getStrKey "sentiment" kvs', getListKey "hashtags" kvs' with
    | some su, some se, some hs => (asStrList hs).map (fun tags => ⟨su, se, tags⟩)
    | _, _, _ => none
  | _ => none

/-- One entry of `LRUCacheWithTTL`: the key, the cached analysis, and the
insertion timestamp (`self.timestamps[key]`). -/
structure CacheEntry where
  key : String
  value : NewsAnalysis
  stamp : Nat
deriving DecidableEq, Repr

/-- The class `LRUCacheWithTTL`: the `OrderedDict` is the entry list, ordered from
least recently used (head, `next(iter(...))`) to most recently used
(tail, `move_to_end`). -/
structure LRUCacheWithTTL where
  max_size : Nat
  ttl_seconds : Nat
  entries : List CacheEntry
deriving DecidableEq, Repr

/-- Python `LRUCacheWithTTL.get(key)` at time `now`: a missing key returns `None`;
an expired entry is removed and reported missing; a live hit is moved to
the most-recent end.  Returns the value and the updated cache. -/
def cacheGet (c : LRUCacheWithTTL) (now : Nat) (key : String) :
    Option NewsAnalysis × LRUCacheWithTTL :=
  match c.entries.find? (fun e => e.key = key) with
  | none => (none, c)
  | some e =>
    if now - e.stamp > c.ttl_seconds then
      (none, { c with entries := c.entries.filter (fun e' => e'.key ≠ key) })
    else
      (some e.value, { c with entries := c.entries.filter (fun e' => e'.key ≠ key) ++ [e] })

/-- Python `LRUCacheWithTTL.put(key, value)` at time `now`: an existing key is
moved to the most-recent end (and overwritten); otherwise, if the cache is
full, the least recently used entry is dropped; the new entry lands at the
most-recent end.  (The code would raise on `put` into a full cache of
`max_size` 0; configuration forces `max_size ≥ 1`.) -/
def cachePut (c : LRUCacheWithTTL) (now : Nat) (key : String) (v : NewsAnalysis) :
    LRUCacheWithTTL :=
  if c.entries.any (fun e => e.key = key) then
    { c with entries := c.entries.filter (fun e' => e'.key ≠ key) ++ [⟨key, v, now⟩] }
  else if c.entries.length ≥ c.max_size then
    { c with entries := c.entries.tail ++ [⟨key, v, now⟩] }
  else
    { c with entries := c.entries ++ [⟨key, v, now⟩] }

/-- Python `OllamaAnalyzer._get_cache_key(text)`: the stable hash (`md5` in the
source, abstracted as the function parameter `hash`) of the raw,
untruncated input text. -/
def get_cache_key (hash : String → String) (text : String) : String := hash text

/-- Python `OllamaAnalyzer._get_optimized_prompt(message_text)`: renders the fixed
Jinja template (abstracted as `template`) over
`truncate_text(message_text, MAX_TEXT_LENGTH_FOR_ANALYSIS)`. -/
def get_optimized_prompt (template : String → String) (text : String) : String :=
  template (truncate_text text MAX_TEXT_LENGTH_FOR_ANALYSIS)

/-- The outcome of one un-retried `analyze_message` body: the returned
value, the cache afterwards, and how many times the backing model was
invoked for analysis. -/
structure AnalyzeOutcome where
  result : Option NewsAnalysis
  cache : LRUCacheWithTTL
  modelCalls : Nat
deriving Repr

/-- The body of `OllamaAnalyzer.analyze_message` at time `now`, with the
model behaviour for this invocation given by `respond`.  Cache lookup
first (a hit returns immediately); on a miss the model is invoked once and
the response is decoded, hashtag-cleaned and validated; every exception
inside the try block (including a raising model call) becomes `None`; only
a fully built `NewsAnalysis` is cached.  The one-time
`_check_model_availability` health check and the fire-and-forget
`log_llm_call` are outside the modelled contract. -/
def analyzeCore (hash : String → String) (now : Nat) (respond : InvokeResult)
    (c : LRUCacheWithTTL) (text : String) : AnalyzeOutcome :=
  match cacheGet c now (get_cache_key hash text) with
  | (some a, c₁) => ⟨some a, c₁, 0⟩
  | (none, c₁) =>
    match respond with
    | .raise => ⟨none, c₁, 1⟩
    | .ret raw =>
      match decodeRaw raw with
      | none => ⟨none, c₁, 1⟩
      | some v =>
        match buildAnalysis v with
        | none => ⟨none, c₁, 1⟩
        | some a => ⟨some a, cachePut c₁ now (get_cache_key hash text) a, 1⟩

/-! ## Embedding of `utils/error_handler.py` (retry with backoff) -/

/-- The dataclass `RetryConfig` (defaults: 3 attempts, base 1.0 s, cap
60.0 s, exponential base 2.0, jitter on). -/
structure RetryConfig where
  max_attempts : Nat
  base_delay : ℚ
  max_delay : ℚ
  exponential_base : ℚ
  jitter : Bool
deriving DecidableEq, Repr

/-- The instance `RetryConfig(max_attempts=3, base_delay=1.0)` as attached to
`OllamaAnalyzer.analyze_message`. -/
def retryConfigLLM : RetryConfig := ⟨3, 1, 60, 2, true⟩

/-- The instance `RetryConfig(max_attempts=2, base_delay=0.5)` as attached to
`MonitoringService._process_single_message`. -/
def retryConfigMonitoring : RetryConfig := ⟨2, 1/2, 60, 2, true⟩

/-- The delay slept before re-running attempt `attempt + 1`:
`min(base_delay * exponential_base**attempt, max_delay)`, multiplied by the
jitter factor (`0.5 + random.random() * 0.5`, given by the oracle `jf`)
when jitter is enabled. -/
def backoffDelay (cfg : RetryConfig) (jf : Nat → ℚ) (attempt : Nat) : ℚ :=
  (min (cfg.base_delay * cfg.exponential_base ^ attempt) cfg.max_delay) *
    (if cfg.jitter then jf attempt else 1)

/-- The attempt loop of `retry_with_backoff`: run `f` on attempt indices,
return the first success; on an exception, sleep (recorded in the delay
list) unless this was the final attempt; after exhaustion re-raise the last
exception.  Returns the outcome, the number of attempts made, and the
delays slept. -/
def retryLoop (f : Nat → Except ε α) (cfg : RetryConfig) (jf : Nat → ℚ) :
    Nat → Nat → ε → Except ε α × Nat × List ℚ
  | _, 0, last => (.error last, 0, [])
  | attempt, n + 1, _ =>
    match f attempt with
    | .ok v => (.ok v, 1, [])
    | .error e =>
      if n = 0 then (.error e, 1, [])
      else
        ((retryLoop f cfg jf (attempt + 1) n e).1,
         (retryLoop f cfg jf (attempt + 1) n e).2.1 + 1,
         backoffDelay cfg jf attempt :: (retryLoop f cfg jf (attempt + 1) n e).2.2)

/-- Python `retry_with_backoff(config=cfg)(f)`: run up to `cfg.max_attempts`
attempts (`e₀` stands for the initial `last_exception = None`, surfaced
only in the degenerate `max_attempts = 0` case). -/
def retry_with_backoff (cfg : RetryConfig) (jf : Nat → ℚ) (f : Nat → Except ε α)
    (e₀ : ε) : Except ε α × Nat × List ℚ :=
  retryLoop f cfg jf 0 cfg.max_attempts e₀

/-- The decorated `analyze_message` as called by the monitoring service:
`retry_with_backoff` wrapped around the body `analyzeCore`.  The body
returns (it never raises): every exception inside its try block — network
errors and timeouts from the model call included — is caught and turned
into `None`, and the code before the try block is pure.  `responds i` is
the model behaviour on the i-th attempt. -/
def analyze_message (hash : String → String) (cfg : RetryConfig) (jf : Nat → ℚ)
    (now : Nat) (responds : Nat → InvokeResult) (c : LRUCacheWithTTL) (text : String) :
    Except Unit AnalyzeOutcome × Nat × List ℚ :=
  retry_with_backoff cfg jf (fun i => Except.ok (analyzeCore hash now (responds i) c text)) ()

/-! ## Embedding of `services/telegram_monitor.py` and `monitoring_service.py` -/

/-- A message as returned by the Telethon client: its id and its `text`
attribute (`none` for media-only messages; the empty string is falsy in
the `if msg.text` check as well). -/
structure RawMsg where
  id : Nat
  text : Option String
deriving DecidableEq, Repr

/-- Python truthiness of `msg.text`. -/
def hasText (m : RawMsg) : Bool :=
  match m.text with
  | some s => s ≠ ""
  | none => false

/-- The `message["text"]` field of a converted message. -/
def textOf (m : RawMsg) : String := m.text.getD ""

/-- Comparison used by `converted_messages.sort(key=lambda x: x["id"])`. -/
def msgIdLe (a b : RawMsg) : Prop := a.id ≤ b.id

instance : DecidableRel msgIdLe := fun a b => Nat.decLe a.id b.id

instance : IsTotal RawMsg msgIdLe := ⟨fun a b => Nat.le_total a.id b.id⟩

instance : IsTrans RawMsg msgIdLe := ⟨fun _ _ _ h1 h2 => Nat.le_trans h1 h2⟩

/-- Python `TelegramMonitor.get_new_messages(channel_id, last_message_id)`: the
client messages (newest first) are walked in reversed order, keeping only
those with truthy `text` and `id > last_message_id`, and finally sorted by
ascending id. -/
def get_new_messages (raws : List RawMsg) (last_message_id : Nat) : List RawMsg :=
  List.insertionSort msgIdLe
    ((raws.reverse).filter (fun m => hasText m && decide (last_message_id < m.id)))

/-- The per-channel durable state: the cursor row of the `channels` table
and the persisted `messages` / `analyses` rows (the latter keyed by
message id). -/
structure ChannelState where
  cursor : Nat
  savedMessages : List RawMsg
  savedAnalyses : List (Nat × NewsAnalysis)
deriving DecidableEq, Repr

/-- What the external channel source shows during one poll cycle:
`get_initial_last_message_id` and the raw `get_messages` batch. -/
structure Source where
  latestId : Nat
  raws : List RawMsg
deriving DecidableEq, Repr

/-- Python `MonitoringService._process_single_message`: analyze; on failure return
`False` with nothing persisted; on success persist the raw message
(`save_message`) and its analysis (`save_analysis`) and return `True`.
The cursor is deliberately not touched here.  The outcome of the analyzer
for a given text is the oracle `analyzeO`; the notification hand-off does
not touch this state. -/
def process_single_message (analyzeO : String → Option NewsAnalysis)
    (st : ChannelState) (m : RawMsg) : ChannelState × Bool :=
  match analyzeO (textOf m) with
  | none => (st, false)
  | some a =>
    ({ st with
        savedMessages := st.savedMessages ++ [m]
        savedAnalyses := st.savedAnalyses ++ [(m.id, a)] }, true)

/-- Python `max(msg["id"] for msg in messages)`. -/
def maxIdOf (msgs : List RawMsg) : Nat := msgs.foldl (fun acc m => max acc m.id) 0

/-- The batch half of `MonitoringService._process_channel` (lines 140-166):
process every fetched message, count failures, and set the cursor to the
maximum fetched id if and only if no message failed (and the batch is
non-empty). -/
def process_batch (analyzeO : String → Option NewsAnalysis)
    (msgs : List RawMsg) (st : ChannelState) : ChannelState :=
  let st' := msgs.foldl (fun s m => (process_single_message analyzeO s m).1) st
  if msgs.all (fun m => (analyzeO (textOf m)).isSome) && !msgs.isEmpty then
    { st' with cursor := maxIdOf msgs }
  else st'

/-- One full cycle of `MonitoringService._process_channel` for one channel:
a cursor of 0 is seeded from the current latest message id of the source (when
that is positive) and the cycle ends there; otherwise the new messages are
fetched and the batch is processed. -/
def process_channel (analyzeO : String → Option NewsAnalysis)
    (src : Source) (st : ChannelState) : ChannelState :=
  if st.cursor = 0 ∧ 0 < src.latestId then { st with cursor := src.latestId }
  else
    let msgs := get_new_messages src.raws st.cursor
    if msgs.isEmpty then st
    else process_batch analyzeO msgs st

/-- A sequence of poll cycles for one channel (`MonitoringService.run`),
each with its own view of the source. -/
def run_cycles (analyzeO : String → Option NewsAnalysis)
    (srcs : List Source) (st : ChannelState) : ChannelState :=
  srcs.foldl (fun s src => process_channel analyzeO src s) st

/-! ## Embedding of `bot/notifier.py` and the subscriber table -/

/-- Outcome of `bot.send_message` for one recipient: success, an aiogram
`TelegramAPIError` carrying its message text, or any other exception. -/
inductive SendOutcome where
  | ok : SendOutcome
  | tgError : String → SendOutcome
  | otherError : SendOutcome
deriving DecidableEq, Repr

/-- Does `needle` occur at the start of `hay`? -/
def charsStartWith : List Char → List Char → Bool
  | [], _ => true
  | _ :: _, [] => false
  | a :: as, b :: bs => a == b && charsStartWith as bs

/-- Python `needle in hay` on strings as character lists. -/
def charsContain (needle : List Char) : List Char → Bool
  | [] => needle.isEmpty
  | c :: rest => charsStartWith needle (c :: rest) || charsContain needle rest

/-- The classification `"bot was blocked" in str(e).lower()` applied to a
`TelegramAPIError`. -/
def isBlockedError : SendOutcome → Bool
  | .tgError msg => charsContain "bot was blocked".toList (lowerChars msg.toList)
  | _ => false

/-- Python `DataManager.remove_subscriber`: soft delete — the row is kept, only
`is_active` is cleared. -/
def remove_subscriber (subs : List (Int × Bool)) (chat_id : Int) : List (Int × Bool) :=
  subs.map (fun p => if p.1 = chat_id then (p.1, false) else p)

/-- Python `DataManager.get_all_subscribers`: chat ids with `is_active = 1`. -/
def get_all_subscribers (subs : List (Int × Bool)) : List Int :=
  (subs.filter (fun p => p.2)).map (fun p => p.1)

/-- The observable outcome of one dispatch: the subscriber table
afterwards, the sequence of attempted recipients, and the three counters
the code logs. -/
structure DispatchResult where
  subs : List (Int × Bool)
  attempts : List Int
  successful_sends : Nat
  failed_sends : Nat
  filtered_sends : Nat
deriving DecidableEq, Repr

/-- One iteration of the subscriber loop in
`NotificationManager._send_single_notification`: a filtered recipient is
skipped without a send; otherwise one send is attempted; a
`TelegramAPIError` whose lowercased text contains "bot was blocked"
additionally soft-deletes the recipient; every error is swallowed and the
loop continues. -/
def send_step (shouldSend : Int → Bool) (outcome : Int → SendOutcome)
    (r : DispatchResult) (user : Int) : DispatchResult :=
  if shouldSend user then
    let r' := { r with attempts := r.attempts ++ [user] }
    match outcome user with
    | .ok => { r' with successful_sends := r'.successful_sends + 1 }
    | .tgError msg =>
      let r'' := { r' with failed_sends := r'.failed_sends + 1 }
      if isBlockedError (.tgError msg) then
        { r'' with subs := remove_subscriber r''.subs user }
      else r''
    | .otherError => { r' with failed_sends := r'.failed_sends + 1 }
  else { r with filtered_sends := r.filtered_sends + 1 }

/-- Python `NotificationManager._send_single_notification(notification_data,
subscribers)`: iterate the send loop over the subscriber snapshot.
`shouldSend` is `data_manager.should_send_notification` (the per-user
filter at dispatch time), `outcome` the delivery result per recipient. -/
def send_single_notification (shouldSend : Int → Bool) (outcome : Int → SendOutcome)
    (subscribers : List Int) (subs : List (Int × Bool)) : DispatchResult :=
  subscribers.foldl (send_step shouldSend outcome) ⟨subs, [], 0, 0, 0⟩

/-! ## Lemmas about batch processing and the cursor -/

theorem process_single_cursor (analyzeO : String → Option NewsAnalysis)
    (st : ChannelState) (m : RawMsg) :
    (process_single_message analyzeO st m).1.cursor = st.cursor := by
  unfold process_single_message
  cases analyzeO (textOf m) <;> rfl

theorem batch_fold_cursor (analyzeO : String → Option NewsAnalysis) :
    ∀ (msgs : List RawMsg) (st : ChannelState),
      (msgs.foldl (fun s m => (process_single_message analyzeO s m).1) st).cursor
        = st.cursor := by
  intro msgs
  induction msgs with
  | nil => intro st; rfl
  | cons x xs ih =>
    intro st
    rw [List.foldl_cons, ih, process_single_cursor]

theorem process_single_saved_mono (analyzeO : String → Option NewsAnalysis)
    (st : ChannelState) (m : RawMsg) :
    (∀ x ∈ st.savedMessages, x ∈ (process_single_message analyzeO st m).1.savedMessages) ∧
    (∀ p ∈ st.savedAnalyses, p ∈ (process_single_message analyzeO st m).1.savedAnalyses) := by
  unfold process_single_message
  cases analyzeO (textOf m) with
  | none => exact ⟨fun x hx => hx, fun p hp => hp⟩
  | some a =>
    exact ⟨fun x hx => List.mem_append_left _ hx, fun p hp => List.mem_append_left _ hp⟩

theorem batch_fold_saved_mono (analyzeO : String → Option NewsAnalysis) :
    ∀ (msgs : List RawMsg) (st : ChannelState),
      (∀ x ∈ st.savedMessages,
        x ∈ (msgs.foldl (fun s m => (process_single_message analyzeO s m).1) st).savedMessages) ∧
      (∀ p ∈ st.savedAnalyses,
        p ∈ (msgs.foldl (fun s m => (process_single_message analyzeO s m).1) st).savedAnalyses) := by
  intro msgs
  induction msgs with
  | nil => intro st; exact ⟨fun x hx => hx, fun p hp => hp⟩
  | cons y ys ih =>
    intro st
    rw [List.foldl_cons]
    refine ⟨fun x hx => ?_, fun p hp => ?_⟩
    · exact (ih _).1 x ((process_single_saved_mono analyzeO st y).1 x hx)
    · exact (ih _).2 p ((process_single_saved_mono analyzeO st y).2 p hp)

theorem batch_fold_saved (analyzeO : String → Option NewsAnalysis) :
    ∀ (msgs : List RawMsg) (st : ChannelState) (m : RawMsg) (a : NewsAnalysis),
      m ∈ msgs → analyzeO (textOf m) = some a →
      m ∈ (msgs.foldl (fun s m => (process_single_message analyzeO s m).1) st).savedMessages ∧
      (m.id, a) ∈ (msgs.foldl (fun s m => (process_single_message analyzeO s m).1) st).savedAnalyses := by
  intro msgs
  induction msgs with
  | nil =>
    intro st m a hm _
    exact absurd hm (List.not_mem_nil m)
  | cons y ys ih =>
    intro st m a hm ha
    rw [List.foldl_cons]
    rcases List.mem_cons.mp hm with heq | hmem
    · subst heq
      have hstep : m ∈ (process_single_message analyzeO st m).1.savedMessages ∧
          (m.id, a) ∈ (process_single_message analyzeO st m).1.savedAnalyses := by
        unfold process_single_message
        rw [ha]
        exact ⟨List.mem_append_right _ (List.mem_singleton.mpr rfl),
          List.mem_append_right _ (List.mem_singleton.mpr rfl)⟩
      exact ⟨(batch_fold_saved_mono analyzeO ys _).1 m hstep.1,
        (batch_fold_saved_mono analyzeO ys _).2 _ hstep.2⟩
    · exact ih _ m a hmem ha

theorem foldl_max_ge_acc : ∀ (msgs : List RawMsg) (acc : Nat),
    acc ≤ msgs.foldl (fun a m => max a m.id) acc := by
  intro msgs
  induction msgs with
  | nil => intro acc; exact Nat.le_refl acc
  | cons x xs ih =>
    intro acc
    rw [List.foldl_cons]
    exact Nat.le_trans (Nat.le_max_left acc x.id) (ih (max acc x.id))

theorem mem_le_foldl_max : ∀ (msgs : List RawMsg) (acc : Nat) (m : RawMsg),
    m ∈ msgs → m.id ≤ msgs.foldl (fun a m => max a m.id) acc := by
  intro msgs
  induction msgs with
  | nil =>
    intro acc m hm
    exact absurd hm (List.not_mem_nil m)
  | cons x xs ih =>
    intro acc m hm
    rw [List.foldl_cons]
    rcases List.mem_cons.mp hm with heq | hmem
    · subst heq
      exact Nat.le_trans (Nat.le_max_right acc m.id) (foldl_max_ge_acc xs _)
    · exact ih _ m hmem

theorem foldl_max_cases : ∀ (msgs : List RawMsg) (acc : Nat),
    msgs.foldl (fun a m => max a m.id) acc = acc ∨
    ∃ m ∈ msgs, msgs.foldl (fun a m => max a m.id) acc = m.id := by
  intro msgs
  induction msgs with
  | nil => intro acc; exact Or.inl rfl
  | cons x xs ih =>
    intro acc
    rw [List.foldl_cons]
    rcases ih (max acc x.id) with h | ⟨m, hm, h⟩
    · rcases Nat.le_total acc x.id with hle | hle
      · right
        exact ⟨x, List.mem_cons_self _ _, by rw [h, Nat.max_eq_right hle]⟩
      · left
        rw [h, Nat.max_eq_left hle]
    · right
      exact ⟨m, List.mem_cons_of_mem _ hm, h⟩

theorem maxIdOf_mem {msgs : List RawMsg} (hne : msgs ≠ []) :
    ∃ m ∈ msgs, maxIdOf msgs = m.id := by
  unfold maxIdOf
  rcases foldl_max_cases msgs 0 with h | h
  · cases msgs with
    | nil => exact absurd rfl hne
    | cons x xs =>
      refine ⟨x, List.mem_cons_self _ _, Nat.le_antisymm ?_ ?_⟩
      · rw [h]; exact Nat.zero_le _
      · exact mem_le_foldl_max _ 0 x (List.mem_cons_self _ _)
  · exact h

theorem le_maxIdOf {msgs : List RawMsg} {m : RawMsg} (hm : m ∈ msgs) :
    m.id ≤ maxIdOf msgs := mem_le_foldl_max msgs 0 m hm

/-- C1: for every poll cycle on a non-empty fetched batch (whose ids all
exceed the current cursor, as fetched batches do), the cursor is advanced
to the maximum message id of the batch if and only if every message in the
batch was processed successfully; if at least one message fails, the
cursor is unchanged, while every successfully analyzed sibling message and
its analysis are still persisted. -/
theorem C1_all_or_nothing (analyzeO : String → Option NewsAnalysis)
    (msgs : List RawMsg) (st : ChannelState)
    (hne : msgs ≠ []) (hgt : ∀ m ∈ msgs, st.cursor < m.id) :
    ((process_batch analyzeO msgs st).cursor = maxIdOf msgs ↔
      ∀ m ∈ msgs, (analyzeO (textOf m)).isSome = true) ∧
    ((∃ m ∈ msgs, analyzeO (textOf m) = none) →
      (process_batch analyzeO msgs st).cursor = st.cursor) ∧
    (∀ m ∈ msgs, ∀ a : NewsAnalysis, analyzeO (textOf m) = some a →
      m ∈ (process_batch analyzeO msgs st).savedMessages ∧
      (m.id, a) ∈ (process_batch analyzeO msgs st).savedAnalyses) := by
  have hEmpty : msgs.isEmpty = false := by
    cases msgs with
    | nil => exact absurd rfl hne
    | cons x xs => rfl
  by_cases hall : msgs.all (fun m => (analyzeO (textOf m)).isSome) = true
  · have hpb : process_batch analyzeO msgs st =
        { msgs.foldl (fun s m => (process_single_message analyzeO s m).1) st with
            cursor := maxIdOf msgs } := by
      unfold process_batch
      rw [hall, hEmpty]
      rfl
    refine ⟨?_, ?_, ?_⟩
    · rw [hpb]
      exact ⟨fun _ => List.all_eq_true.mp hall, fun _ => rfl⟩
    · rintro ⟨m, hm, hnone⟩
      have := List.all_eq_true.mp hall m hm
      rw [hnone] at this
      exact absurd this (by simp)
    · intro m hm a ha
      rw [hpb]
      exact batch_fold_saved analyzeO msgs st m a hm ha
  · have hallf : msgs.all (fun m => (analyzeO (textOf m)).isSome) = false :=
      Bool.not_eq_true _ ▸ (Bool.eq_false_iff.mpr hall)
    have hpb : process_batch analyzeO msgs st =
        msgs.foldl (fun s m => (process_single_message analyzeO s m).1) st := by
      unfold process_batch
      rw [hallf]
      rfl
    have hcur : (process_batch analyzeO msgs st).cursor = st.cursor := by
      rw [hpb, batch_fold_cursor]
    refine ⟨?_, fun _ => hcur, ?_⟩
    · constructor
      · intro hmax
        obtain ⟨m, hm, hmid⟩ := maxIdOf_mem hne
        have h1 := hgt m hm
        rw [hcur] at hmax
        rw [hmax, hmid] at h1
        exact absurd h1 (Nat.lt_irrefl _)
      · intro hforall
        exact absurd (List.all_eq_true.mpr hforall) hall
    · intro m hm a ha
      rw [hpb]
      exact batch_fold_saved analyzeO msgs st m a hm ha

/-- Concrete batch for the C1 witness: five messages, ids 51-55. -/
def batchW : List RawMsg :=
  [⟨51, some "aa"⟩, ⟨52, some "bb"⟩, ⟨53, some "cc"⟩, ⟨54, some "dd"⟩, ⟨55, some "ee"⟩]

/-- Concrete analyzer for the C1 witness: message three ("cc") fails. -/
def analyzeW : String → Option NewsAnalysis :=
  fun t => if t = "cc" then none else some ⟨"s", "Нейтральная", ["новости"]⟩

/-- Concrete starting state for the C1 witness: cursor 50, empty store. -/
def stW : ChannelState := ⟨50, [], []⟩

/-- Witness for C1 at the scenario of the spec: a batch of 5 where message 3
fails; the hypotheses hold and the theorem applies. -/
theorem C1_all_or_nothing_witness :
    (batchW ≠ [] ∧ ∀ m ∈ batchW, stW.cursor < m.id) ∧
    (((process_batch analyzeW batchW stW).cursor = maxIdOf batchW ↔
        ∀ m ∈ batchW, (analyzeW (textOf m)).isSome = true) ∧
      ((∃ m ∈ batchW, analyzeW (textOf m) = none) →
        (process_batch analyzeW batchW stW).cursor = stW.cursor) ∧
      (∀ m ∈ batchW, ∀ a : NewsAnalysis, analyzeW (textOf m) = some a →
        m ∈ (process_batch analyzeW batchW stW).savedMessages ∧
        (m.id, a) ∈ (process_batch analyzeW batchW stW).savedAnalyses)) :=
  ⟨⟨by decide, by decide⟩, C1_all_or_nothing analyzeW batchW stW (by decide) (by decide)⟩

/-! ## Lemmas about `get_new_messages` -/

theorem mem_get_new_messages {raws : List RawMsg} {cur : Nat} {m : RawMsg}
    (hm : m ∈ get_new_messages raws cur) :
    m ∈ raws ∧ hasText m = true ∧ cur < m.id := by
  unfold get_new_messages at hm
  have hperm := List.perm_insertionSort msgIdLe
    ((raws.reverse).filter (fun m => hasText m && decide (cur < m.id)))
  have hmem := hperm.mem_iff.mp hm
  have h1 := List.mem_filter.mp hmem
  refine ⟨List.mem_reverse.mp h1.1, ?_, ?_⟩
  · exact (Bool.and_eq_true _ _ |>.mp h1.2).1
  · exact of_decide_eq_true (Bool.and_eq_true _ _ |>.mp h1.2).2

theorem get_new_messages_complete {raws : List RawMsg} {cur : Nat} {m : RawMsg}
    (hm : m ∈ raws) (ht : hasText m = true) (hid : cur < m.id) :
    m ∈ get_new_messages raws cur := by
  unfold get_new_messages
  have hperm := List.perm_insertionSort msgIdLe
    ((raws.reverse).filter (fun m => hasText m && decide (cur < m.id)))
  apply hperm.mem_iff.mpr
  apply List.mem_filter.mpr
  refine ⟨List.mem_reverse.mpr hm, ?_⟩
  rw [ht, decide_eq_true hid]
  rfl

theorem get_new_messages_sorted (raws : List RawMsg) (cur : Nat) :
    List.Sorted msgIdLe (get_new_messages raws cur) :=
  List.sorted_insertionSort msgIdLe _

theorem process_channel_eq (analyzeO : String → Option NewsAnalysis)
    (src : Source) (st : ChannelState) :
    process_channel analyzeO src st =
      if st.cursor = 0 ∧ 0 < src.latestId then { st with cursor := src.latestId }
      else if (get_new_messages src.raws st.cursor).isEmpty then st
      else process_batch analyzeO (get_new_messages src.raws st.cursor) st := rfl

/-- C2 (amended): the cursor is non-decreasing, per cycle and over any
sequence of cycles, and every cycle either leaves it unchanged, seeds it
from the current latest id of the source (only from cursor 0, without any
analysis), or sets it to the id of a fetched message of a batch in which
every message was fully analyzed and persisted together with its
analysis. -/
theorem C2_cursor_monotone_amended (analyzeO : String → Option NewsAnalysis) :
    (∀ (src : Source) (st : ChannelState),
      st.cursor ≤ (process_channel analyzeO src st).cursor) ∧
    (∀ (srcs : List Source) (st : ChannelState),
      st.cursor ≤ (run_cycles analyzeO srcs st).cursor) ∧
    (∀ (src : Source) (st : ChannelState),
      (process_channel analyzeO src st).cursor = st.cursor ∨
      (st.cursor = 0 ∧ 0 < src.latestId ∧
        (process_channel analyzeO src st).cursor = src.latestId) ∨
      (∃ m ∈ get_new_messages src.raws st.cursor,
        (process_channel analyzeO src st).cursor = m.id ∧
        ∀ m' ∈ get_new_messages src.raws st.cursor,
          ∃ a, analyzeO (textOf m') = some a ∧
            m' ∈ (process_channel analyzeO src st).savedMessages ∧
            (m'.id, a) ∈ (process_channel analyzeO src st).savedAnalyses)) := by
  have hchar : ∀ (src : Source) (st : ChannelState),
      (process_channel analyzeO src st).cursor = st.cursor ∨
      (st.cursor = 0 ∧ 0 < src.latestId ∧
        (process_channel analyzeO src st).cursor = src.latestId) ∨
      (∃ m ∈ get_new_messages src.raws st.cursor,
        (process_channel analyzeO src st).cursor = m.id ∧
        ∀ m' ∈ get_new_messages src.raws st.cursor,
          ∃ a, analyzeO (textOf m') = some a ∧
            m' ∈ (process_channel analyzeO src st).savedMessages ∧
            (m'.id, a) ∈ (process_channel analyzeO src st).savedAnalyses) := by
    intro src st
    rw [process_channel_eq]
    by_cases hseed : st.cursor = 0 ∧ 0 < src.latestId
    · rw [if_pos hseed]
      exact Or.inr (Or.inl ⟨hseed.1, hseed.2, rfl⟩)
    · rw [if_neg hseed]
      by_cases hemp : (get_new_messages src.raws st.cursor).isEmpty = true
      · rw [if_pos hemp]
        exact Or.inl rfl
      · rw [if_neg hemp]
        have hne : get_new_messages src.raws st.cursor ≠ [] := by
          intro hnil
          rw [hnil] at hemp
          exact hemp rfl
        by_cases hall : (get_new_messages src.raws st.cursor).all
            (fun m => (analyzeO (textOf m)).isSome) = true
        · have hEmpty : (get_new_messages src.raws st.cursor).isEmpty = false :=
            Bool.eq_false_iff.mpr hemp
          have hpb : process_batch analyzeO (get_new_messages src.raws st.cursor) st =
              { (get_new_messages src.raws st.cursor).foldl
                  (fun s m => (process_single_message analyzeO s m).1) st with
                  cursor := maxIdOf (get_new_messages src.raws st.cursor) } := by
            unfold process_batch
            rw [hall, hEmpty]
            rfl
          rw [hpb]
          obtain ⟨m, hm, hmax⟩ := maxIdOf_mem hne
          refine Or.inr (Or.inr ⟨m, hm, hmax.symm ▸ rfl, ?_⟩)
          intro m' hm'
          have hsome := List.all_eq_true.mp hall m' hm'
          obtain ⟨a, ha⟩ := Option.isSome_iff_exists.mp hsome
          obtain ⟨hs1, hs2⟩ := batch_fold_saved analyzeO
            (get_new_messages src.raws st.cursor) st m' a hm' ha
          exact ⟨a, ha, hs1, hs2⟩
        · have hallf : (get_new_messages src.raws st.cursor).all
              (fun m => (analyzeO (textOf m)).isSome) = false :=
            Bool.eq_false_iff.mpr hall
          have hpb : process_batch analyzeO (get_new_messages src.raws st.cursor) st =
              (get_new_messages src.raws st.cursor).foldl
                (fun s m => (process_single_message analyzeO s m).1) st := by
            unfold process_batch
            rw [hallf]
            rfl
          rw [hpb, batch_fold_cursor]
          exact Or.inl rfl
  have hmono : ∀ (src : Source) (st : ChannelState),
      st.cursor ≤ (process_channel analyzeO src st).cursor := by
    intro src st
    rcases hchar src st with h | ⟨h0, _, h⟩ | ⟨m, hm, hcur, _⟩
    · rw [h]
    · rw [h, h0]
      exact Nat.zero_le _
    · rw [hcur]
      exact Nat.le_of_lt (mem_get_new_messages hm).2.2
  refine ⟨hmono, ?_, hchar⟩
  intro srcs
  induction srcs with
  | nil => intro st; exact Nat.le_refl _
  | cons s rest ih =>
    intro st
    unfold run_cycles
    rw [List.foldl_cons]
    exact Nat.le_trans (hmono s st) (ih (process_channel analyzeO s st))

/-- Counterexample for C2 as stated: seeding a channel whose cursor is 0
sets the cursor to the latest id of the source (1000) in a cycle in which
nothing was fetched and nothing was analyzed, so the value set is not a
message id that was fetched and fully analyzed that cycle. -/
theorem C2_counterexample :
    (process_channel (fun _ => none) ⟨1000, []⟩ ⟨0, [], []⟩).cursor = 1000 ∧
    (process_channel (fun _ => none) ⟨1000, []⟩ ⟨0, [], []⟩).savedAnalyses = [] ∧
    get_new_messages ([] : List RawMsg) 0 = [] := by
  refine ⟨rfl, rfl, rfl⟩

/-! ## Lemmas about dict lookups and `buildAnalysis` -/

theorem lookupKey_map_set_ne {k k' : String} (h : k' ≠ k) (v : PyVal) :
    ∀ l : List (String × PyVal),
      lookupKey k' (l.map (fun p => if p.1 = k then (k, v) else p)) = lookupKey k' l := by
  intro l
  have hkk : k ≠ k' := fun he => h he.symm
  induction l with
  | nil => rfl
  | cons p rest ih =>
    rcases p with ⟨a, b⟩
    rw [List.map_cons]
    by_cases hak : a = k
    · rw [if_pos hak]
      show (if k = k' then some v else lookupKey k' _) =
        (if a = k' then some b else lookupKey k' rest)
      rw [if_neg hkk, if_neg (hak ▸ hkk), ih]
    · rw [if_neg hak]
      show (if a = k' then some b else lookupKey k' _) =
        (if a = k' then some b else lookupKey k' rest)
      by_cases hak' : a = k'
      · rw [if_pos hak', if_pos hak']
      · rw [if_neg hak', if_neg hak', ih]

theorem lookupKey_map_set_self {k : String} (v : PyVal) :
    ∀ l : List (String × PyVal), (lookupKey k l).isSome = true →
      lookupKey k (l.map (fun p => if p.1 = k then (k, v) else p)) = some v := by
  intro l
  induction l with
  | nil => intro h; simp [lookupKey] at h
  | cons p rest ih =>
    rcases p with ⟨a, b⟩
    intro h
    rw [List.map_cons]
    by_cases hak : a = k
    · rw [if_pos hak]
      show (if k = k then some v else lookupKey k _) = some v
      rw [if_pos rfl]
    · rw [if_neg hak]
      show (if a = k then some b else lookupKey k _) = some v
      rw [if_neg hak]
      apply ih
      have : lookupKey k ((a, b) :: rest) = lookupKey k rest := by
        show (if a = k then some b else lookupKey k rest) = lookupKey k rest
        rw [if_neg hak]
      rw [this] at h
      exact h

theorem lookupKey_append_single_ne {k k' : String} (h : k' ≠ k) (v : PyVal) :
    ∀ l : List (String × PyVal), lookupKey k' (l ++ [(k, v)]) = lookupKey k' l := by
  intro l
  have hkk : k ≠ k' := fun he => h he.symm
  induction l with
  | nil =>
    show (if k = k' then some v else lookupKey k' []) = none
    rw [if_neg hkk]
    rfl
  | cons p rest ih =>
    rcases p with ⟨a, b⟩
    show (if a = k' then some b else lookupKey k' (rest ++ [(k, v)])) =
      (if a = k' then some b else lookupKey k' rest)
    by_cases hak' : a = k'
    · rw [if_pos hak', if_pos hak']
    · rw [if_neg hak', if_neg hak', ih]

theorem lookupKey_append_single_self {k : String} (v : PyVal) :
    ∀ l : List (String × PyVal), lookupKey k l = none →
      lookupKey k (l ++ [(k, v)]) = some v := by
  intro l
  induction l with
  | nil =>
    intro _
    show (if k = k then some v else lookupKey k []) = some v
    rw [if_pos rfl]
  | cons p rest ih =>
    rcases p with ⟨a, b⟩
    intro h
    by_cases hak : a = k
    · exfalso
      have : lookupKey k ((a, b) :: rest) = some b := by
        show (if a = k then some b else lookupKey k rest) = some b
        rw [if_pos hak]
      rw [this] at h
      exact Option.noConfusion h
    · have hrest : lookupKey k rest = none := by
        have : lookupKey k ((a, b) :: rest) = lookupKey k rest := by
          show (if a = k then some b else lookupKey k rest) = lookupKey k rest
          rw [if_neg hak]
        rw [this] at h
        exact h
      show (if a = k then some b else lookupKey k (rest ++ [(k, v)])) = some v
      rw [if_neg hak, ih hrest]

theorem lookupKey_dictSet_ne {k k' : String} (h : k' ≠ k) (v : PyVal)
    (l : List (String × PyVal)) : lookupKey k' (dictSet k v l) = lookupKey k' l := by
  unfold dictSet
  by_cases hs : (lookupKey k l).isSome = true
  · rw [if_pos hs]
    exact lookupKey_map_set_ne h v l
  · rw [if_neg hs]
    exact lookupKey_append_single_ne h v l

theorem lookupKey_dictSet_self (k : String) (v : PyVal)
    (l : List (String × PyVal)) : lookupKey k (dictSet k v l) = some v := by
  unfold dictSet
  by_cases hs : (lookupKey k l).isSome = true
  · rw [if_pos hs]
    exact lookupKey_map_set_self v l hs
  · rw [if_neg hs]
    exact lookupKey_append_single_self v l (Option.not_isSome_iff_eq_none.mp hs)

theorem getStrKey_isSome_lookup {k : String} {kvs : List (String × PyVal)} {s : String}
    (h : getStrKey k kvs = some s) : (lookupKey k kvs).isSome = true := by
  unfold getStrKey at h
  cases hl : lookupKey k kvs with
  | none => rw [hl] at h; exact Option.noConfusion h
  | some v => rfl

theorem getListKey_isSome_lookup {k : String} {kvs : List (String × PyVal)} {xs : List PyVal}
    (h : getListKey k kvs = some xs) : (lookupKey k kvs).isSome = true := by
  unfold getListKey at h
  cases hl : lookupKey k kvs with
  | none => rw [hl] at h; exact Option.noConfusion h
  | some v => rfl

theorem getStrKey_dictSet_ne {k k' : String} (h : k' ≠ k) (v : PyVal)
    (l : List (String × PyVal)) : getStrKey k' (dictSet k v l) = getStrKey k' l := by
  unfold getStrKey
  rw [lookupKey_dictSet_ne h v l]

theorem hasThreeKeys_of_buildAnalysis {kvs : List (String × PyVal)} {a : NewsAnalysis}
    (h : buildAnalysis (.vDict kvs) = some a) : hasThreeKeys kvs = true := by
  unfold buildAnalysis at h
  rcases hh : lookupKey "hashtags" kvs with _ | v
  · simp only [hh] at h
    cases h1 : getStrKey "summary" kvs <;> simp only [h1] at h
    · exact Option.noConfusion h
    cases h2 : getStrKey "sentiment" kvs <;> simp only [h2] at h
    · exact Option.noConfusion h
    cases h3 : getListKey "hashtags" kvs <;> simp only [h3] at h
    · exact Option.noConfusion h
    have hcontra := getListKey_isSome_lookup h3
    rw [hh] at hcontra
    exact Bool.noConfusion hcontra
  · cases v <;> simp only [hh] at h
    case vList xs =>
      rw [getStrKey_dictSet_ne (show ("summary" : String) ≠ "hashtags" by decide),
        getStrKey_dictSet_ne (show ("sentiment" : String) ≠ "hashtags" by decide)] at h
      cases h1 : getStrKey "summary" kvs <;> simp only [h1] at h
      · exact Option.noConfusion h
      cases h2 : getStrKey "sentiment" kvs <;> simp only [h2] at h
      · exact Option.noConfusion h
      unfold hasThreeKeys
      rw [getStrKey_isSome_lookup h1, getStrKey_isSome_lookup h2, hh]
      rfl
    all_goals
      cases h1 : getStrKey "summary" kvs <;> simp only [h1] at h <;>
      first
        | exact Option.noConfusion h
        | (cases h2 : getStrKey "sentiment" kvs <;> simp only [h2] at h <;>
           first
             | exact Option.noConfusion h
             | (cases h3 : getListKey "hashtags" kvs <;> simp only [h3] at h <;>
                first
                  | exact Option.noConfusion h
                  | (unfold hasThreeKeys
                     rw [getStrKey_isSome_lookup h1, getStrKey_isSome_lookup h2, hh]
                     rfl)))

theorem buildAnalysis_none_of_missing {kvs : List (String × PyVal)}
    (h : hasThreeKeys kvs = false) : buildAnalysis (.vDict kvs) = none := by
  cases hb : buildAnalysis (.vDict kvs) with
  | none => rfl
  | some a =>
    rw [hasThreeKeys_of_buildAnalysis hb] at h
    exact Bool.noConfusion h

theorem analyzeCore_miss (hash : String → String) (now : Nat) (respond : InvokeResult)
    (c : LRUCacheWithTTL) (text : String)
    (hmiss : (cacheGet c now (get_cache_key hash text)).1 = none) :
    analyzeCore hash now respond c text =
      match respond with
      | .raise => ⟨none, (cacheGet c now (get_cache_key hash text)).2, 1⟩
      | .ret raw =>
        match decodeRaw raw with
        | none => ⟨none, (cacheGet c now (get_cache_key hash text)).2, 1⟩
        | some v =>
          match buildAnalysis v with
          | none => ⟨none, (cacheGet c now (get_cache_key hash text)).2, 1⟩
          | some a =>
            ⟨some a,
             cachePut (cacheGet c now (get_cache_key hash text)).2 now
               (get_cache_key hash text) a, 1⟩ := by
  unfold analyzeCore
  rcases hcg : cacheGet c now (get_cache_key hash text) with ⟨o, c₂⟩
  rw [hcg] at hmiss
  have ho : o = none := hmiss
  subst ho
  rfl

theorem analyzeCore_hit (hash : String → String) (now : Nat) (respond : InvokeResult)
    (c : LRUCacheWithTTL) (text : String) (a : NewsAnalysis)
    (hhit : (cacheGet c now (get_cache_key hash text)).1 = some a) :
    analyzeCore hash now respond c text
      = ⟨some a, (cacheGet c now (get_cache_key hash text)).2, 0⟩ := by
  unfold analyzeCore
  rcases hcg : cacheGet c now (get_cache_key hash text) with ⟨o, c₂⟩
  rw [hcg] at hhit
  have ho : o = some a := hhit
  subst ho
  rfl

theorem analyzeCore_miss_ret (hash : String → String) (now : Nat) (raw : RawOutput)
    (c : LRUCacheWithTTL) (text : String)
    (hmiss : (cacheGet c now (get_cache_key hash text)).1 = none) :
    analyzeCore hash now (.ret raw) c text =
      match decodeRaw raw with
      | none => ⟨none, (cacheGet c now (get_cache_key hash text)).2, 1⟩
      | some v =>
        match buildAnalysis v with
        | none => ⟨none, (cacheGet c now (get_cache_key hash text)).2, 1⟩
        | some a =>
          ⟨some a,
           cachePut (cacheGet c now (get_cache_key hash text)).2 now
             (get_cache_key hash text) a, 1⟩ := by
  rw [analyzeCore_miss hash now (.ret raw) c text hmiss]

theorem analyzeCore_miss_raise (hash : String → String) (now : Nat)
    (c : LRUCacheWithTTL) (text : String)
    (hmiss : (cacheGet c now (get_cache_key hash text)).1 = none) :
    analyzeCore hash now .raise c text
      = ⟨none, (cacheGet c now (get_cache_key hash text)).2, 1⟩ := by
  rw [analyzeCore_miss hash now .raise c text hmiss]

theorem analyzeCore_ret_none (hash : String → String) (now : Nat) (raw : RawOutput)
    (c : LRUCacheWithTTL) (text : String)
    (hmiss : (cacheGet c now (get_cache_key hash text)).1 = none)
    (hd : decodeRaw raw = none) :
    analyzeCore hash now (.ret raw) c text
      = ⟨none, (cacheGet c now (get_cache_key hash text)).2, 1⟩ := by
  rw [analyzeCore_miss_ret hash now raw c text hmiss, hd]

theorem analyzeCore_ret_nobuild (hash : String → String) (now : Nat) (raw : RawOutput)
    (c : LRUCacheWithTTL) (text : String) (v : PyVal)
    (hmiss : (cacheGet c now (get_cache_key hash text)).1 = none)
    (hd : decodeRaw raw = some v) (hb : buildAnalysis v = none) :
    analyzeCore hash now (.ret raw) c text
      = ⟨none, (cacheGet c now (get_cache_key hash text)).2, 1⟩ := by
  rw [analyzeCore_miss_ret hash now raw c text hmiss, hd]
  show (match buildAnalysis v with
    | none => (⟨none, (cacheGet c now (get_cache_key hash text)).2, 1⟩ : AnalyzeOutcome)
    | some a =>
      ⟨some a,
       cachePut (cacheGet c now (get_cache_key hash text)).2 now
         (get_cache_key hash text) a, 1⟩)
    = ⟨none, (cacheGet c now (get_cache_key hash text)).2, 1⟩
  rw [hb]

theorem analyzeCore_ret_built (hash : String → String) (now : Nat) (raw : RawOutput)
    (c : LRUCacheWithTTL) (text : String) (v : PyVal) (a : NewsAnalysis)
    (hmiss : (cacheGet c now (get_cache_key hash text)).1 = none)
    (hd : decodeRaw raw = some v) (hb : buildAnalysis v = some a) :
    analyzeCore hash now (.ret raw) c text
      = ⟨some a,
         cachePut (cacheGet c now (get_cache_key hash text)).2 now
           (get_cache_key hash text) a, 1⟩ := by
  rw [analyzeCore_miss_ret hash now raw c text hmiss, hd]
  show (match buildAnalysis v with
    | none => (⟨none, (cacheGet c now (get_cache_key hash text)).2, 1⟩ : AnalyzeOutcome)
    | some a =>
      ⟨some a,
       cachePut (cacheGet c now (get_cache_key hash text)).2 now
         (get_cache_key hash text) a, 1⟩)
    = ⟨some a,
       cachePut (cacheGet c now (get_cache_key hash text)).2 now
         (get_cache_key hash text) a, 1⟩
  rw [hb]

/-- C3 (amended): when the cache lookup misses, every raw model output that
is not already a Python list and does not parse as a JSON object carrying
all three required keys makes `analyze_message` return `None`, and the
cache afterwards is exactly the post-lookup cache — no entry is added, no
partial analysis is cached or returned.  (A Python-list output is instead
wrapped into a synthetic neutral analysis that is returned and cached; see
the counterexample.) -/
theorem C3_no_partial_cache_amended (hash : String → String) (now : Nat)
    (c : LRUCacheWithTTL) (text : String) (raw : RawOutput)
    (hnl : ∀ xs, raw ≠ RawOutput.rList xs)
    (h3 : parsesAsThreeKeyObject raw = false)
    (hmiss : (cacheGet c now (get_cache_key hash text)).1 = none) :
    (analyzeCore hash now (.ret raw) c text).result = none ∧
    (analyzeCore hash now (.ret raw) c text).cache
      = (cacheGet c now (get_cache_key hash text)).2 := by
  rw [analyzeCore_miss hash now (.ret raw) c text hmiss]
  cases raw with
  | rList xs => exact absurd rfl (hnl xs)
  | rDict kvs =>
    simp only [parsesAsThreeKeyObject] at h3
    simp [decodeRaw, buildAnalysis_none_of_missing h3]
  | rStr s =>
    simp only [parsesAsThreeKeyObject] at h3
    cases hj : jsonLoads s with
    | none => simp [decodeRaw, hj]
    | some v =>
      simp only [hj] at h3
      cases v with
      | vDict kvs => simp [decodeRaw, hj, buildAnalysis_none_of_missing h3]
      | vNull => simp [decodeRaw, hj, buildAnalysis]
      | vBool b => simp [decodeRaw, hj, buildAnalysis]
      | vInt n => simp [decodeRaw, hj, buildAnalysis]
      | vStr s2 => simp [decodeRaw, hj, buildAnalysis]
      | vList xs => simp [decodeRaw, hj, buildAnalysis]

/-- Counterexample for C3 as stated: a raw model output that is a Python
list (valid JSON, but not an object with the three keys) does not fail —
`analyze_message` fabricates a neutral analysis with a blank summary,
returns it, and caches it (the empty cache gains an entry). -/
theorem C3_counterexample :
    parsesAsThreeKeyObject (RawOutput.rList []) = false ∧
    (analyzeCore (fun s => s) 0 (.ret (RawOutput.rList []))
        ⟨10, 3600, []⟩ "x").result = some ⟨" ", "Нейтральная", []⟩ ∧
    (analyzeCore (fun s => s) 0 (.ret (RawOutput.rList []))
        ⟨10, 3600, []⟩ "x").cache.entries
      = [⟨"x", ⟨" ", "Нейтральная", []⟩, 0⟩] := by decide

/-- Witness for C3 (amended) at a concrete unparseable output. -/
theorem C3_no_partial_cache_witness :
    ((∀ xs, RawOutput.rStr "oops" ≠ RawOutput.rList xs) ∧
     parsesAsThreeKeyObject (RawOutput.rStr "oops") = false ∧
     (cacheGet ⟨10, 3600, []⟩ 0 (get_cache_key (fun s => s) "t")).1 = none) ∧
    ((analyzeCore (fun s => s) 0 (.ret (RawOutput.rStr "oops"))
        ⟨10, 3600, []⟩ "t").result = none ∧
     (analyzeCore (fun s => s) 0 (.ret (RawOutput.rStr "oops"))
        ⟨10, 3600, []⟩ "t").cache
       = (cacheGet ⟨10, 3600, []⟩ 0 (get_cache_key (fun s => s) "t")).2) :=
  ⟨⟨fun _ h => RawOutput.noConfusion h, by decide, rfl⟩,
   C3_no_partial_cache_amended (fun s => s) 0 ⟨10, 3600, []⟩ "t" (RawOutput.rStr "oops")
     (fun _ h => RawOutput.noConfusion h) (by decide) rfl⟩

/-! ## Claim C4: what string feeds the cache key -/

/-- The cache key as the spec words it: the hash of the possibly truncated
input text.  (Stated from the spec for comparison; the source hashes the
untruncated text.) -/
def cacheKeySpec (hash : String → String) (text : String) : String :=
  hash (truncate_text text MAX_TEXT_LENGTH_FOR_ANALYSIS)

theorem truncate_replicate {n : Nat} (h : 9000 < n) :
    truncate_text (String.mk (List.replicate n 'a')) MAX_TEXT_LENGTH_FOR_ANALYSIS
      = String.mk (List.replicate 9000 'a') ++ "..." := by
  unfold truncate_text MAX_TEXT_LENGTH_FOR_ANALYSIS
  rw [if_neg]
  · congr 1
    show String.mk ((List.replicate n 'a').take 9000) = String.mk (List.replicate 9000 'a')
    rw [List.take_replicate, min_eq_left (by omega : (9000 : Nat) ≤ n)]
  · show ¬((List.replicate n 'a').length ≤ 9000)
    rw [List.length_replicate]
    omega

theorem mk_replicate_ne {m n : Nat} (h : m ≠ n) :
    String.mk (List.replicate m 'a') ≠ String.mk (List.replicate n 'a') := by
  intro he
  have h2 : (List.replicate m 'a').length = (List.replicate n 'a').length :=
    congrArg String.length he
  rw [List.length_replicate, List.length_replicate] at h2
  exact h h2

theorem mk_replicate_ne_trunc {m : Nat} (h : 9000 < m) (hlt : m < 9003) :
    String.mk (List.replicate m 'a') ≠ String.mk (List.replicate 9000 'a') ++ "..." := by
  intro he
  have h2 : List.replicate m 'a' = List.replicate 9000 'a' ++ "...".toList :=
    congrArg String.toList he
  have h3 := congrArg List.length h2
  rw [List.length_replicate, List.length_append, List.length_replicate] at h3
  have h4 : "...".toList.length = 3 := rfl
  rw [h4] at h3
  omega

/-- Counterexample for C4 as stated: two over-long inputs that truncate to
the same string get different cache keys, and the key of an over-long input
differs from the hash of its truncation — the code hashes the full
untruncated text. -/
theorem C4_counterexample :
    truncate_text (String.mk (List.replicate 9001 'a')) MAX_TEXT_LENGTH_FOR_ANALYSIS
      = truncate_text (String.mk (List.replicate 9002 'a')) MAX_TEXT_LENGTH_FOR_ANALYSIS ∧
    get_cache_key (fun s => s) (String.mk (List.replicate 9001 'a'))
      ≠ get_cache_key (fun s => s) (String.mk (List.replicate 9002 'a')) ∧
    get_cache_key (fun s => s) (String.mk (List.replicate 9001 'a'))
      ≠ cacheKeySpec (fun s => s) (String.mk (List.replicate 9001 'a')) := by
  refine ⟨?_, ?_, ?_⟩
  · rw [truncate_replicate (by omega), truncate_replicate (by omega)]
  · exact mk_replicate_ne (by omega)
  · show String.mk (List.replicate 9001 'a')
      ≠ truncate_text (String.mk (List.replicate 9001 'a')) MAX_TEXT_LENGTH_FOR_ANALYSIS
    rw [truncate_replicate (by omega)]
    exact mk_replicate_ne_trunc (by omega) (by omega)

/-- C4 (amended): the cache key is the hash of the full, untruncated input
text; truncation feeds only the prompt; and a cache hit returns the cached
analysis immediately, without invoking the model. -/
theorem C4_cache_key_amended (hash : String → String) (template : String → String)
    (now : Nat) (respond : InvokeResult) (c : LRUCacheWithTTL)
    (text : String) (a : NewsAnalysis)
    (hhit : (cacheGet c now (get_cache_key hash text)).1 = some a) :
    get_cache_key hash text = hash text ∧
    get_optimized_prompt template text
      = template (truncate_text text MAX_TEXT_LENGTH_FOR_ANALYSIS) ∧
    ((analyzeCore hash now respond c text).result = some a ∧
     (analyzeCore hash now respond c text).modelCalls = 0) :=
  ⟨rfl, rfl, by
    rw [analyzeCore_hit hash now respond c text a hhit]
    exact ⟨rfl, rfl⟩⟩

/-- Witness for C4 (amended) on a one-entry cache that is hit. -/
theorem C4_cache_key_witness :
    ((cacheGet ⟨10, 3600, [⟨"t", ⟨"s", "Нейтральная", []⟩, 5⟩]⟩ 5
        (get_cache_key (fun s => s) "t")).1 = some ⟨"s", "Нейтральная", []⟩) ∧
    (get_cache_key (fun s => s) "t" = (fun s => s) "t" ∧
     get_optimized_prompt (fun p => p) "t"
       = (fun p => p) (truncate_text "t" MAX_TEXT_LENGTH_FOR_ANALYSIS) ∧
     ((analyzeCore (fun s => s) 5 .raise
         ⟨10, 3600, [⟨"t", ⟨"s", "Нейтральная", []⟩, 5⟩]⟩ "t").result
        = some ⟨"s", "Нейтральная", []⟩ ∧
      (analyzeCore (fun s => s) 5 .raise
         ⟨10, 3600, [⟨"t", ⟨"s", "Нейтральная", []⟩, 5⟩]⟩ "t").modelCalls = 0)) :=
  ⟨by decide,
   C4_cache_key_amended (fun s => s) (fun p => p) 5 .raise
     ⟨10, 3600, [⟨"t", ⟨"s", "Нейтральная", []⟩, 5⟩]⟩ "t" ⟨"s", "Нейтральная", []⟩
     (by decide)⟩

/-- C5: the hashtag post-processing applies no cap.  Six distinct already
clean tags pass through `clean_and_validate_hashtags` unclipped, and an
analysis built by the engine carries six hashtags, exceeding the configured
`MAX_HASHTAGS_IN_ANALYSIS = 5` that the code never applies. -/
theorem C5_no_hashtag_cap :
    (clean_and_validate_hashtags [.vStr "economy", .vStr "politics", .vStr "sports",
        .vStr "science", .vStr "culture", .vStr "weather"]).length = 6 ∧
    MAX_HASHTAGS_IN_ANALYSIS = 5 ∧
    (buildAnalysis (.vDict [("summary", .vStr "s"), ("sentiment", .vStr "Нейтральная"),
        ("hashtags", .vList [.vStr "economy", .vStr "politics", .vStr "sports",
          .vStr "science", .vStr "culture", .vStr "weather"])])).map
        (fun a => a.hashtags.length) = some 6 := by decide

/-! ## Cache behaviour across two calls (claim C6) -/

theorem cacheGet_absent (c : LRUCacheWithTTL) (now : Nat) (key : String)
    (h : c.entries.find? (fun e => e.key = key) = none) :
    cacheGet c now key = (none, c) := by
  unfold cacheGet
  rw [h]

theorem cacheGet_after_put (c : LRUCacheWithTTL) (now₁ now₂ : Nat) (key : String)
    (a : NewsAnalysis)
    (h : c.entries.find? (fun e => e.key = key) = none)
    (hts : now₂ - now₁ ≤ c.ttl_seconds) :
    cacheGet (cachePut c now₁ key a) now₂ key
      = (some a, { cachePut c now₁ key a with
          entries := (cachePut c now₁ key a).entries.filter (fun e' => e'.key ≠ key)
            ++ [⟨key, a, now₁⟩] }) := by
  have hany : c.entries.any (fun e => e.key = key) = false := by
    rw [List.any_eq_false]
    exact List.find?_eq_none.mp h
  have hput : (cachePut c now₁ key a).entries
      = (if c.entries.length ≥ c.max_size then c.entries.tail else c.entries)
        ++ [⟨key, a, now₁⟩] := by
    unfold cachePut
    rw [hany, if_neg (by decide : ¬(false = true))]
    by_cases hlen : c.entries.length ≥ c.max_size
    · rw [if_pos hlen, if_pos hlen]
    · rw [if_neg hlen, if_neg hlen]
  have hsub : ∀ e ∈ (if c.entries.length ≥ c.max_size then c.entries.tail
      else c.entries), ¬(e.key = key) := by
    intro e he
    have hmem : e ∈ c.entries := by
      by_cases hlen : c.entries.length ≥ c.max_size
      · rw [if_pos hlen] at he
        exact (List.tail_sublist c.entries).subset he
      · rw [if_neg hlen] at he
        exact he
    have hne := List.find?_eq_none.mp h e hmem
    intro hk
    exact hne (decide_eq_true hk)
  have hfind : (cachePut c now₁ key a).entries.find? (fun e => e.key = key)
      = some ⟨key, a, now₁⟩ := by
    rw [hput, List.find?_append]
    have h1 : (if c.entries.length ≥ c.max_size then c.entries.tail
        else c.entries).find? (fun e => e.key = key) = none :=
      List.find?_eq_none.mpr (fun e he => by
        simp only [decide_eq_true_eq]
        exact hsub e he)
    rw [h1, Option.none_or, List.find?_cons]
    simp
  have httl : (cachePut c now₁ key a).ttl_seconds = c.ttl_seconds := by
    unfold cachePut
    rw [hany, if_neg (by decide : ¬(false = true))]
    by_cases hlen : c.entries.length ≥ c.max_size
    · rw [if_pos hlen]
    · rw [if_neg hlen]
  unfold cacheGet
  rw [hfind]
  split
  · next heq => exact Option.noConfusion heq
  · next e heq =>
    have he : e = ⟨key, a, now₁⟩ := Option.some_inj.mp heq.symm
    subst he
    rw [if_neg (by
      rw [httl]
      show ¬(now₂ - now₁ > c.ttl_seconds)
      omega)]

/-- C6: calling analyze twice with the same text — the key not cached
beforehand, the first call succeeding, and no TTL expiry between the calls
— invokes the backing model exactly once in total, and both calls return
equal analyses. -/
theorem C6_cache_idempotence (hash : String → String) (now₁ now₂ : Nat)
    (respond₁ respond₂ : InvokeResult) (c : LRUCacheWithTTL) (text : String)
    (a : NewsAnalysis)
    (habs : c.entries.find? (fun e => e.key = get_cache_key hash text) = none)
    (hsucc : (analyzeCore hash now₁ respond₁ c text).result = some a)
    (hts : now₂ - now₁ ≤ c.ttl_seconds) :
    (analyzeCore hash now₂ respond₂
        (analyzeCore hash now₁ respond₁ c text).cache text).result = some a ∧
    (analyzeCore hash now₁ respond₁ c text).modelCalls
      + (analyzeCore hash now₂ respond₂
          (analyzeCore hash now₁ respond₁ c text).cache text).modelCalls = 1 := by
  have hmiss0 : cacheGet c now₁ (get_cache_key hash text) = (none, c) :=
    cacheGet_absent c now₁ _ habs
  have hmiss : (cacheGet c now₁ (get_cache_key hash text)).1 = none := by
    rw [hmiss0]
  have hout : (analyzeCore hash now₁ respond₁ c text).cache
      = cachePut c now₁ (get_cache_key hash text) a ∧
      (analyzeCore hash now₁ respond₁ c text).modelCalls = 1 := by
    cases respond₁ with
    | raise =>
      rw [analyzeCore_miss_raise hash now₁ c text hmiss] at hsucc
      exact Option.noConfusion hsucc
    | ret raw =>
      cases hd : decodeRaw raw with
      | none =>
        rw [analyzeCore_ret_none hash now₁ raw c text hmiss hd] at hsucc
        exact Option.noConfusion hsucc
      | some v =>
        cases hb : buildAnalysis v with
        | none =>
          rw [analyzeCore_ret_nobuild hash now₁ raw c text v hmiss hd hb] at hsucc
          exact Option.noConfusion hsucc
        | some a2 =>
          rw [analyzeCore_ret_built hash now₁ raw c text v a2 hmiss hd hb] at hsucc ⊢
          have ha2 : a2 = a := Option.some_inj.mp hsucc
          subst ha2
          rw [hmiss0]
          exact ⟨rfl, rfl⟩
  have hhit : (cacheGet (cachePut c now₁ (get_cache_key hash text) a) now₂
      (get_cache_key hash text)).1 = some a := by
    rw [cacheGet_after_put c now₁ now₂ _ a habs hts]
  rw [hout.1, analyzeCore_hit hash now₂ respond₂ _ text a hhit, hout.2]
  exact ⟨rfl, rfl⟩

/-- Concrete successful raw output for the C6 witness. -/
def rawW : RawOutput :=
  .rDict [("summary", .vStr "s"), ("sentiment", .vStr "Нейтральная"),
    ("hashtags", .vList [.vStr "tag"])]

/-- Concrete empty cache for the C6 witness. -/
def cacheW : LRUCacheWithTTL := ⟨10, 3600, []⟩

/-- Concrete analysis produced from `rawW`. -/
def analysisW : NewsAnalysis := ⟨"s", "Нейтральная", ["tag"]⟩

/-- Witness for C6 at a concrete fresh cache and successful first call. -/
theorem C6_cache_idempotence_witness :
    (cacheW.entries.find? (fun e => e.key = get_cache_key (fun s => s) "t") = none ∧
     (analyzeCore (fun s => s) 0 (.ret rawW) cacheW "t").result = some analysisW ∧
     (1 : Nat) - 0 ≤ cacheW.ttl_seconds) ∧
    ((analyzeCore (fun s => s) 1 .raise
        (analyzeCore (fun s => s) 0 (.ret rawW) cacheW "t").cache "t").result
       = some analysisW ∧
     (analyzeCore (fun s => s) 0 (.ret rawW) cacheW "t").modelCalls
       + (analyzeCore (fun s => s) 1 .raise
           (analyzeCore (fun s => s) 0 (.ret rawW) cacheW "t").cache "t").modelCalls
       = 1) :=
  ⟨⟨by decide, by decide, by decide⟩,
   C6_cache_idempotence (fun s => s) 0 1 (.ret rawW) .raise cacheW "t" analysisW
     (by decide) (by decide) (by decide)⟩

/-! ## Retry behaviour (claim C8) -/

theorem retryLoop_all_error {ε α : Type} (cfg : RetryConfig) (jf : Nat → ℚ)
    (f : Nat → Except ε α) (g : Nat → ε) :
    ∀ (n start : Nat) (e₀ : ε), 1 ≤ n →
      (∀ i, i < n → f (start + i) = .error (g (start + i))) →
      retryLoop f cfg jf start n e₀
        = (.error (g (start + n - 1)), n,
           (List.range (n - 1)).map (fun i => backoffDelay cfg jf (start + i))) := by
  intro n
  induction n with
  | zero => intro start e₀ h; omega
  | succ m ih =>
    intro start e₀ _ hf
    have hf0 : f start = .error (g start) := by
      have h0 := hf 0 (by omega)
      rw [Nat.add_zero] at h0
      exact h0
    simp only [retryLoop]
    rw [hf0]
    show (if m = 0 then ((Except.error (g start) : Except ε α), 1, ([] : List ℚ))
      else ((retryLoop f cfg jf (start + 1) m (g start)).1,
            (retryLoop f cfg jf (start + 1) m (g start)).2.1 + 1,
            backoffDelay cfg jf start
              :: (retryLoop f cfg jf (start + 1) m (g start)).2.2)) = _
    by_cases hm : m = 0
    · subst hm
      rw [if_pos rfl]
      simp
    · rw [if_neg hm]
      obtain ⟨m2, hm2⟩ : ∃ m2, m = m2 + 1 := ⟨m - 1, by omega⟩
      subst hm2
      rw [ih (start + 1) (g start) (by omega)
        (fun i hi => by
          have hfi := hf (i + 1) (by omega)
          rw [show start + (i + 1) = start + 1 + i by omega] at hfi
          exact hfi)]
      refine Prod.ext ?_ (Prod.ext ?_ ?_)
      · show Except.error (g (start + 1 + (m2 + 1) - 1))
          = Except.error (g (start + (m2 + 1 + 1) - 1))
        rw [show start + 1 + (m2 + 1) - 1 = start + (m2 + 1 + 1) - 1 by omega]
      · rfl
      · show backoffDelay cfg jf start
            :: (List.range (m2 + 1 - 1)).map (fun i => backoffDelay cfg jf (start + 1 + i))
          = (List.range (m2 + 1 + 1 - 1)).map (fun i => backoffDelay cfg jf (start + i))
        rw [show m2 + 1 - 1 = m2 by omega, show m2 + 1 + 1 - 1 = m2 + 1 by omega,
          List.range_succ_eq_map, List.map_cons, List.map_map, Nat.add_zero]
        congr 1
        apply List.map_congr_left
        intro i _
        show backoffDelay cfg jf (start + 1 + i) = backoffDelay cfg jf (start + (i + 1))
        rw [show start + 1 + i = start + (i + 1) by omega]

theorem analyze_message_single_attempt (hash : String → String) (cfg : RetryConfig)
    (jf : Nat → ℚ) (now : Nat) (responds : Nat → InvokeResult) (c : LRUCacheWithTTL)
    (text : String) (h : 1 ≤ cfg.max_attempts) :
    analyze_message hash cfg jf now responds c text
      = (.ok (analyzeCore hash now (responds 0) c text), 1, []) := by
  unfold analyze_message retry_with_backoff
  obtain ⟨m, hm⟩ : ∃ m, cfg.max_attempts = m + 1 := ⟨cfg.max_attempts - 1, by omega⟩
  rw [hm]
  simp only [retryLoop]

/-- C8 (amended): the backoff wrapper retries only exceptions that escape
the wrapped callable — a function raising on every attempt is re-run
`max_attempts` times with delays `min(base·expbase^i, max)·jitter` and the
last exception is re-raised — but `analyze_message` never lets a failure of
the model call escape: network errors, timeouts and malformed JSON are all
caught inside its body, so the wrapped call makes exactly one attempt and
surfaces the failure as `None` (after one backing invocation when the
cache missed), and that `None` makes `_process_single_message` return
`False` without touching the persisted state, so the polling loop is not
crashed. -/
theorem C8_retry_behaviour_amended :
    (∀ (ε α : Type) (cfg : RetryConfig) (jf : Nat → ℚ) (f : Nat → Except ε α)
        (g : Nat → ε) (e₀ : ε), 1 ≤ cfg.max_attempts →
      (∀ i, i < cfg.max_attempts → f i = .error (g i)) →
      retry_with_backoff cfg jf f e₀
        = (.error (g (cfg.max_attempts - 1)), cfg.max_attempts,
           (List.range (cfg.max_attempts - 1)).map (backoffDelay cfg jf))) ∧
    (∀ (hash : String → String) (cfg : RetryConfig) (jf : Nat → ℚ) (now : Nat)
        (responds : Nat → InvokeResult) (c : LRUCacheWithTTL) (text : String),
      1 ≤ cfg.max_attempts →
      analyze_message hash cfg jf now responds c text
        = (.ok (analyzeCore hash now (responds 0) c text), 1, [])) ∧
    (∀ (hash : String → String) (now : Nat) (c : LRUCacheWithTTL) (text : String),
      (cacheGet c now (get_cache_key hash text)).1 = none →
      analyzeCore hash now .raise c text
        = ⟨none, (cacheGet c now (get_cache_key hash text)).2, 1⟩) ∧
    (∀ (analyzeO : String → Option NewsAnalysis) (st : ChannelState) (m : RawMsg),
      analyzeO (textOf m) = none →
      process_single_message analyzeO st m = (st, false)) := by
  refine ⟨?_, ?_, ?_, ?_⟩
  · intro ε α cfg jf f g e₀ h1 hf
    unfold retry_with_backoff
    rw [retryLoop_all_error cfg jf f g cfg.max_attempts 0 e₀ h1
      (fun i hi => by
        rw [Nat.zero_add]
        exact hf i hi)]
    rw [Nat.zero_add]
    congr 1
    congr 1
    apply List.map_congr_left
    intro i _
    rw [Nat.zero_add]
  · intro hash cfg jf now responds c text h1
    exact analyze_message_single_attempt hash cfg jf now responds c text h1
  · intro hash now c text hmiss
    exact analyzeCore_miss_raise hash now c text hmiss
  · intro analyzeO st m hnone
    unfold process_single_message
    rw [hnone]

/-- Counterexample for C8 as stated: with the model call raising on every
attempt (a persistent transient failure), the decorated `analyze_message`
performs exactly one attempt and one backing invocation and returns a
normal `None` — it is not retried up to `max_attempts = 3`, and no failure
signal is raised to the caller. -/
theorem C8_counterexample :
    (analyze_message (fun s => s) retryConfigLLM (fun _ => 1) 0 (fun _ => .raise)
        cacheW "t").2.1 = 1 ∧
    (analyze_message (fun s => s) retryConfigLLM (fun _ => 1) 0 (fun _ => .raise)
        cacheW "t").1 = .ok ⟨none, cacheW, 1⟩ ∧
    retryConfigLLM.max_attempts = 3 :=
  ⟨rfl, rfl, rfl⟩

/-- Witness for C8 (amended) at concrete inputs: an always-raising wrapped
function is retried three times with delays 1 s and 2 s, and an
analyze call over a raising model makes one attempt. -/
theorem C8_retry_behaviour_witness :
    ((1 ≤ retryConfigLLM.max_attempts) ∧
     (∀ i, i < retryConfigLLM.max_attempts →
        (fun j => (Except.error j : Except Nat Unit)) i = .error ((fun j => j) i))) ∧
    (retry_with_backoff retryConfigLLM (fun _ => 1)
        (fun j => (Except.error j : Except Nat Unit)) 0
      = (.error (retryConfigLLM.max_attempts - 1), retryConfigLLM.max_attempts,
         (List.range (retryConfigLLM.max_attempts - 1)).map
           (backoffDelay retryConfigLLM (fun _ => 1)))) ∧
    (analyze_message (fun s => s) retryConfigLLM (fun _ => 1) 0 (fun _ => .raise)
        cacheW "t"
      = (.ok (analyzeCore (fun s => s) 0 .raise cacheW "t"), 1, [])) ∧
    (process_single_message (fun _ => none) ⟨50, [], []⟩ ⟨51, some "x"⟩
      = (⟨50, [], []⟩, false)) :=
  ⟨⟨by decide, fun i _ => rfl⟩,
   C8_retry_behaviour_amended.1 Nat Unit retryConfigLLM (fun _ => 1)
     (fun j => .error j) (fun j => j) 0 (by decide) (fun i _ => rfl),
   C8_retry_behaviour_amended.2.1 (fun s => s) retryConfigLLM (fun _ => 1) 0
     (fun _ => .raise) cacheW "t" (by decide),
   C8_retry_behaviour_amended.2.2.2 (fun _ => none) ⟨50, [], []⟩ ⟨51, some "x"⟩ rfl⟩

/-! ## Dispatch behaviour (claim C9) -/

theorem send_step_pass (shouldSend : Int → Bool) (outcome : Int → SendOutcome)
    (r : DispatchResult) (u : Int) (h : shouldSend u = true) :
    (send_step shouldSend outcome r u).attempts = r.attempts ++ [u] ∧
    (send_step shouldSend outcome r u).subs
      = (if isBlockedError (outcome u) then remove_subscriber r.subs u else r.subs) := by
  unfold send_step
  rw [if_pos h]
  cases ho : outcome u with
  | ok =>
    refine ⟨rfl, ?_⟩
    rw [if_neg (by decide : ¬(isBlockedError .ok = true))]
  | tgError msg =>
    constructor
    · show (if isBlockedError (.tgError msg) = true then
          (⟨remove_subscriber r.subs u, r.attempts ++ [u], r.successful_sends,
            r.failed_sends + 1, r.filtered_sends⟩ : DispatchResult)
        else
          ⟨r.subs, r.attempts ++ [u], r.successful_sends,
            r.failed_sends + 1, r.filtered_sends⟩).attempts = r.attempts ++ [u]
      by_cases hb : isBlockedError (.tgError msg) = true
      · rw [if_pos hb]
      · rw [if_neg hb]
    · show (if isBlockedError (.tgError msg) = true then
          (⟨remove_subscriber r.subs u, r.attempts ++ [u], r.successful_sends,
            r.failed_sends + 1, r.filtered_sends⟩ : DispatchResult)
        else
          ⟨r.subs, r.attempts ++ [u], r.successful_sends,
            r.failed_sends + 1, r.filtered_sends⟩).subs
        = (if isBlockedError (.tgError msg) then remove_subscriber r.subs u else r.subs)
      by_cases hb : isBlockedError (.tgError msg) = true
      · rw [if_pos hb, if_pos hb]
      · rw [if_neg hb, if_neg hb]
  | otherError =>
    refine ⟨rfl, ?_⟩
    rw [if_neg (by decide : ¬(isBlockedError .otherError = true))]

theorem send_fold_pass (shouldSend : Int → Bool) (outcome : Int → SendOutcome) :
    ∀ (users : List Int) (r : DispatchResult), (∀ u ∈ users, shouldSend u = true) →
    (users.foldl (send_step shouldSend outcome) r).attempts = r.attempts ++ users ∧
    (users.foldl (send_step shouldSend outcome) r).subs
      = r.subs.map (fun p =>
          if p.1 ∈ users.filter (fun v => isBlockedError (outcome v))
          then (p.1, false) else p) := by
  intro users
  induction users with
  | nil =>
    intro r _
    constructor
    · rw [List.foldl_nil, List.append_nil]
    · rw [List.foldl_nil, List.filter_nil]
      have : ∀ p ∈ r.subs,
          (if p.1 ∈ ([] : List Int) then (p.1, false) else p) = id p := by
        intro p _
        rw [if_neg (List.not_mem_nil p.1)]
        rfl
      rw [List.map_congr_left this, List.map_id]
  | cons u us ih =>
    intro r hp
    rw [List.foldl_cons]
    obtain ⟨ha, hs⟩ := send_step_pass shouldSend outcome r u (hp u (List.mem_cons_self _ _))
    obtain ⟨iha, ihs⟩ := ih (send_step shouldSend outcome r u)
      (fun v hv => hp v (List.mem_cons_of_mem _ hv))
    constructor
    · rw [iha, ha, List.append_assoc, List.singleton_append]
    · rw [ihs, hs]
      by_cases hb : isBlockedError (outcome u) = true
      · rw [if_pos hb]
        unfold remove_subscriber
        rw [List.map_map]
        apply List.map_congr_left
        intro p _
        have hfc : (u :: us).filter (fun v => isBlockedError (outcome v))
            = u :: us.filter (fun v => isBlockedError (outcome v)) :=
          List.filter_cons_of_pos hb
        rw [hfc]
        by_cases hpu : p.1 = u
        · show (if ((if p.1 = u then (p.1, false) else p)).1
              ∈ us.filter (fun v => isBlockedError (outcome v))
            then (((if p.1 = u then (p.1, false) else p)).1, false)
            else (if p.1 = u then (p.1, false) else p))
            = (if p.1 ∈ u :: us.filter (fun v => isBlockedError (outcome v))
               then (p.1, false) else p)
          rw [if_pos hpu]
          have hrhs : p.1 ∈ u :: us.filter (fun v => isBlockedError (outcome v)) := by
            rw [hpu]
            exact List.mem_cons_self _ _
          by_cases hin : p.1 ∈ us.filter (fun v => isBlockedError (outcome v))
          · rw [if_pos hin, if_pos hrhs]
          · rw [if_neg hin, if_pos hrhs]
        · show (if ((if p.1 = u then (p.1, false) else p)).1
              ∈ us.filter (fun v => isBlockedError (outcome v))
            then (((if p.1 = u then (p.1, false) else p)).1, false)
            else (if p.1 = u then (p.1, false) else p))
            = (if p.1 ∈ u :: us.filter (fun v => isBlockedError (outcome v))
               then (p.1, false) else p)
          rw [if_neg hpu]
          have hmem : (p.1 ∈ u :: us.filter (fun v => isBlockedError (outcome v)))
              ↔ (p.1 ∈ us.filter (fun v => isBlockedError (outcome v))) := by
            constructor
            · intro hm
              rcases List.mem_cons.mp hm with he | hm2
              · exact absurd he hpu
              · exact hm2
            · exact fun hm => List.mem_cons_of_mem _ hm
          by_cases hin : p.1 ∈ us.filter (fun v => isBlockedError (outcome v))
          · rw [if_pos hin, if_pos (hmem.mpr hin)]
          · rw [if_neg hin, if_neg (fun hm => hin (hmem.mp hm))]
      · rw [if_neg hb]
        have hfc : (u :: us).filter (fun v => isBlockedError (outcome v))
            = us.filter (fun v => isBlockedError (outcome v)) :=
          List.filter_cons_of_neg (by
            intro hc
            exact hb hc)
        rw [hfc]

/-- C9: for a dispatch in which every subscriber of the snapshot passes the
per-user filters, every subscriber receives exactly one delivery attempt,
in order — no per-recipient failure aborts the batch; exactly the rows
whose attempted send raised a "bot was blocked" Telegram error are
soft-deleted (row kept with the active flag cleared, no longer among the
active subscribers), and every other row is unchanged. -/
theorem C9_blocked_isolation (shouldSend : Int → Bool) (outcome : Int → SendOutcome)
    (subscribers : List Int) (subs : List (Int × Bool))
    (hpass : ∀ u ∈ subscribers, shouldSend u = true) :
    (send_single_notification shouldSend outcome subscribers subs).attempts
      = subscribers ∧
    (send_single_notification shouldSend outcome subscribers subs).subs
      = subs.map (fun p =>
          if p.1 ∈ subscribers.filter (fun v => isBlockedError (outcome v))
          then (p.1, false) else p) ∧
    ((send_single_notification shouldSend outcome subscribers subs).subs.map Prod.fst
      = subs.map Prod.fst) ∧
    (∀ u ∈ subscribers, isBlockedError (outcome u) = true →
      u ∉ get_all_subscribers
        (send_single_notification shouldSend outcome subscribers subs).subs) := by
  unfold send_single_notification
  obtain ⟨ha, hs⟩ := send_fold_pass shouldSend outcome subscribers ⟨subs, [], 0, 0, 0⟩ hpass
  refine ⟨?_, ?_, ?_, ?_⟩
  · rw [ha]
    exact List.nil_append _
  · rw [hs]
  · rw [hs, List.map_map]
    apply List.map_congr_left
    intro p _
    show (if p.1 ∈ subscribers.filter (fun v => isBlockedError (outcome v))
        then (p.1, false) else p).1 = p.1
    by_cases hin : p.1 ∈ subscribers.filter (fun v => isBlockedError (outcome v))
    · rw [if_pos hin]
    · rw [if_neg hin]
  · intro u hu hb hmem
    rw [hs] at hmem
    unfold get_all_subscribers at hmem
    rcases List.mem_map.mp hmem with ⟨p, hpf, hp1⟩
    obtain ⟨hpm, hp2⟩ := List.mem_filter.mp hpf
    rcases List.mem_map.mp hpm with ⟨q, _, hFq⟩
    by_cases hqin : q.1 ∈ subscribers.filter (fun v => isBlockedError (outcome v))
    · rw [if_pos hqin] at hFq
      rw [← hFq] at hp2
      exact Bool.noConfusion hp2
    · rw [if_neg hqin] at hFq
      rw [← hFq] at hp1
      apply hqin
      rw [hp1]
      exact List.mem_filter.mpr ⟨hu, hb⟩

/-- The subscriber table for the C9 witness: ten active subscribers. -/
def subsW : List (Int × Bool) :=
  [(1, true), (2, true), (3, true), (4, true), (5, true),
   (6, true), (7, true), (8, true), (9, true), (10, true)]

/-- Delivery outcomes for the C9 witness: recipient 4 yields a blocked-bot
error, everyone else succeeds. -/
def outcomeW : Int → SendOutcome :=
  fun u => if u = 4 then .tgError "Forbidden: bot was blocked by the user" else .ok

/-- Witness for C9 at the ten-subscriber example of the spec with recipient 4
blocked. -/
theorem C9_blocked_isolation_witness :
    (∀ u ∈ ([1, 2, 3, 4, 5, 6, 7, 8, 9, 10] : List Int), (fun _ => true) u = true) ∧
    ((send_single_notification (fun _ => true) outcomeW
        [1, 2, 3, 4, 5, 6, 7, 8, 9, 10] subsW).attempts
      = [1, 2, 3, 4, 5, 6, 7, 8, 9, 10] ∧
     (send_single_notification (fun _ => true) outcomeW
        [1, 2, 3, 4, 5, 6, 7, 8, 9, 10] subsW).subs
      = subsW.map (fun p =>
          if p.1 ∈ ([1, 2, 3, 4, 5, 6, 7, 8, 9, 10] : List Int).filter
              (fun v => isBlockedError (outcomeW v))
          then (p.1, false) else p) ∧
     ((send_single_notification (fun _ => true) outcomeW
        [1, 2, 3, 4, 5, 6, 7, 8, 9, 10] subsW).subs.map Prod.fst
      = subsW.map Prod.fst) ∧
     (∀ u ∈ ([1, 2, 3, 4, 5, 6, 7, 8, 9, 10] : List Int),
        isBlockedError (outcomeW u) = true →
        u ∉ get_all_subscribers (send_single_notification (fun _ => true) outcomeW
          [1, 2, 3, 4, 5, 6, 7, 8, 9, 10] subsW).subs)) :=
  ⟨by decide,
   C9_blocked_isolation (fun _ => true) outcomeW [1, 2, 3, 4, 5, 6, 7, 8, 9, 10]
     subsW (by decide)⟩

/-- C10: `get_new_messages` returns only messages that have non-empty text,
each with id strictly greater than the cursor, sorted in ascending id
order; a message without text is never returned, for any cursor, so it is
never processed in any cycle. -/
theorem C10_fetch_contract :
    (∀ (raws : List RawMsg) (cur : Nat) (m : RawMsg),
      m ∈ get_new_messages raws cur → m ∈ raws ∧ hasText m = true ∧ cur < m.id) ∧
    (∀ (raws : List RawMsg) (cur : Nat),
      List.Sorted msgIdLe (get_new_messages raws cur)) ∧
    (∀ (raws : List RawMsg) (cur : Nat) (m : RawMsg),
      hasText m = false → m ∉ get_new_messages raws cur) := by
  refine ⟨fun raws cur m hm => mem_get_new_messages hm,
    fun raws cur => get_new_messages_sorted raws cur,
    fun raws cur m hf hm => ?_⟩
  have h := (mem_get_new_messages hm).2.1
  rw [hf] at h
  exact Bool.noConfusion h
